import Mathlib

/-!
# Jaal: a verification development of the schema builder, introspection layer
and HTTP transport

This file embeds, in Lean, the parts of the Jaal code-first GraphQL framework
that the checked properties speak about:

* the JSON-like values that argument coercion consumes
  (`encoding/json` decodes into `interface{}`; Go `nil` plays the role of
  JSON null),
* the `graphql` package's type model (`graphql/types.go`),
* the schema builder's field registration (`schemabuilder/types.go`),
  struct-tag parsing (`schemabuilder/reflect.go`), scalar registry
  (`RegisterScalar`) and input-object argument coercion
  (`schemabuilder/input_object.go`),
* the introspection overlay (`introspection/introspection.go`): the `__Type`
  resolvers, the built-in directive table, `collectTypes` and the
  `__schema`/`__type` root fields,
* the HTTP handler (`http.go`).

Go maps are embedded as association lists: `mapInsert` prepends, `mapLookup`
returns the first match, which agrees with Go map assignment/lookup at every
key.  Where the Go code iterates a map, the embedding iterates the list; none
of the proved statements depends on iteration order.  Closures produced by
reflection (per-field conversion callables, resolver functions) are carried
as explicit function values.  A Go `panic` in a registration function is
embedded as `Except.error`.
-/

namespace Jaal

/-! ## Association-list maps (Go `map[string]T`) -/

/-- First-match lookup, the observable behaviour of a Go map read after a
sequence of `mapInsert` writes. -/
def mapLookup {α : Type} (m : List (String × α)) (k : String) : Option α :=
  match m with
  | [] => none
  | (k', v) :: rest => if k' = k then some v else mapLookup rest k

/-- Go map assignment `m[k] = v`: later writes win on lookup. -/
def mapInsert {α : Type} (m : List (String × α)) (k : String) (v : α) :
    List (String × α) :=
  (k, v) :: m

theorem mapLookup_cons {α : Type} (k k' : String) (v : α) (m : List (String × α)) :
    mapLookup ((k', v) :: m) k = if k' = k then some v else mapLookup m k := rfl

theorem mapLookup_mem {α : Type} {m : List (String × α)} {k : String} {v : α}
    (h : mapLookup m k = some v) : (k, v) ∈ m := by
  induction m with
  | nil => simp [mapLookup] at h
  | cons p rest ih =>
    obtain ⟨k', v'⟩ := p
    by_cases hk : k' = k
    · subst hk
      simp [mapLookup] at h
      subst h
      exact List.mem_cons_self _ _
    · simp [mapLookup, hk] at h
      exact List.mem_cons_of_mem _ (ih h)

theorem mapLookup_isSome_of_key_mem {α : Type} {m : List (String × α)} {k : String}
    {v : α} (h : (k, v) ∈ m) : (mapLookup m k).isSome := by
  induction m with
  | nil => simp at h
  | cons p rest ih =>
    obtain ⟨k', v'⟩ := p
    rcases List.mem_cons.mp h with h1 | h2
    · cases h1
      simp [mapLookup]
    · by_cases hk : k' = k <;> simp [mapLookup, hk, ih h2]

/-! ## JSON-like values

`encoding/json` unmarshals a request body into `interface{}` values: `nil`,
`bool`, `float64`/`int64`, `string`, `[]interface{}` and
`map[string]interface{}`.  JSON `null` and a missing Go map key both read back
as `nil`. -/

inductive JSON where
  | null
  | boolean (b : Bool)
  | number (n : Int)
  | str (s : String)
  | arr (elems : List JSON)
  | obj (fields : List (String × JSON))

/-- Whether a decoded value is JSON null (Go `nil`). -/
def JSON.isNull : JSON → Bool
  | .null => true
  | _ => false

/-! ## The `graphql` package's type model (`graphql/types.go`)

`graphql.Type` is the tagged union Scalar / Enum / Object / Interface / Union /
InputObject / List / NonNull.  The Go values form a pointer graph; the
embedding uses a tree.  `Object.Interfaces` (back references kept "for
introspection only") is reduced to the interface names, which breaks the only
reference cycle of the Go structs; `collectTypes` never follows it.  Function
fields (`Scalar.Unwrapper`, `Field.Resolve`, `Field.ParseArguments`) carry no
data the checked properties mention and are dropped. -/

mutual
inductive GType where
  | scalar (name : String) (specifiedByURL : String)
  | enum (name : String) (values : List String) (reverseMap : List (String × String))
  | object (name : String) (description : String)
      (fields : List (String × GField)) (interfaces : List String)
  | interfaceT (name : String) (description : String)
      (fields : List (String × GField)) (types : List GType)
  | union (name : String) (description : String) (types : List GType)
  | inputObject (name : String) (inputFields : List (String × GType))
      (fieldDeprecations : List (String × String)) (oneOf : Bool)
  | list (t : GType)
  | nonNull (t : GType)

inductive GField where
  | mk (type : GType) (args : List (String × GType))
      (isDeprecated : Bool) (deprecationReason : Option String)
end

def GField.type : GField → GType
  | .mk t _ _ _ => t

def GField.args : GField → List (String × GType)
  | .mk _ a _ _ => a

def GField.isDeprecated : GField → Bool
  | .mk _ _ d _ => d

def GField.deprecationReason : GField → Option String
  | .mk _ _ _ r => r

/-! ## Introspection meta-values (`introspection/introspection.go`)

`__InputValue`, `__EnumValue`, `__Field`, `__Directive` and `__Schema` are
plain structs whose introspection object registrations expose each field with
an identity resolver; the embedding keeps the structs.  `__Type` wraps a
`graphql.Type` (`Type{Inner: ...}`); its field resolvers below switch on the
wrapped variant exactly as the Go resolvers do.  The Go `TypeKind` and
`DirectiveLocation` are string types; they stay `String`. -/

structure InputValue where
  name : String
  description : String := ""
  type : GType
  defaultValue : Option String := none
  isDeprecated : Bool := false
  deprecationReason : Option String := none

structure EnumValue where
  name : String
  description : String := ""
  isDeprecated : Bool := false
  deprecationReason : Option String := none

structure Directive where
  name : String
  description : String := ""
  locations : List String
  args : List InputValue

structure IntroField where
  name : String
  description : String := ""
  args : List InputValue
  type : GType
  isDeprecated : Bool := false
  deprecationReason : Option String := none

/-- The `__Type.kind` resolver: a switch on the wrapped `graphql.Type`. -/
def kindResolver : GType → String
  | .object .. => "OBJECT"
  | .union .. => "UNION"
  | .interfaceT .. => "INTERFACE"
  | .scalar .. => "SCALAR"
  | .enum .. => "ENUM"
  | .list .. => "LIST"
  | .inputObject .. => "INPUT_OBJECT"
  | .nonNull .. => "NON_NULL"

/-- The `__Type.name` resolver; `List` and `NonNull` fall through to the
default branch returning `""`. -/
def nameResolver : GType → String
  | .object n .. => n
  | .union n .. => n
  | .interfaceT n .. => n
  | .scalar n _ => n
  | .enum n .. => n
  | .inputObject n .. => n
  | .list _ => ""
  | .nonNull _ => ""

/-- The `__Type.specifiedByURL` resolver: for a Scalar whose
`SpecifiedByURL` is non-empty, a pointer to the URL; nil otherwise. -/
def specifiedByURLResolver : GType → Option String
  | .scalar _ url => if url ≠ "" then some url else none
  | _ => none

/-- Insertion of an introspection record into a name-sorted list; the Go
resolvers sort their output slices with `sort.Slice` on the name. -/
def insertByName {α : Type} (key : α → String) (x : α) : List α → List α
  | [] => [x]
  | y :: ys => if key x ≤ key y then x :: y :: ys else y :: insertByName key x ys

def sortByName {α : Type} (key : α → String) (l : List α) : List α :=
  l.foldr (insertByName key) []

theorem length_insertByName {α : Type} (key : α → String) (x : α) (l : List α) :
    (insertByName key x l).length = l.length + 1 := by
  induction l with
  | nil => rfl
  | cons y ys ih => by_cases h : key x ≤ key y <;> simp [insertByName, h, ih]

theorem length_sortByName {α : Type} (key : α → String) (l : List α) :
    (sortByName key l).length = l.length := by
  induction l with
  | nil => rfl
  | cons y ys ih => simp [sortByName, List.foldr] at ih ⊢; rw [length_insertByName, ih]

theorem mem_insertByName {α : Type} (key : α → String) (x y : α) (l : List α) :
    y ∈ insertByName key x l ↔ y = x ∨ y ∈ l := by
  induction l with
  | nil => simp [insertByName]
  | cons z zs ih =>
    by_cases h : key x ≤ key z
    · simp [insertByName, h]
    · simp [insertByName, h, ih]
      tauto

theorem mem_sortByName {α : Type} (key : α → String) (x : α) (l : List α) :
    x ∈ sortByName key l ↔ x ∈ l := by
  induction l with
  | nil => simp [sortByName]
  | cons y ys ih =>
    simp only [sortByName, List.foldr] at ih ⊢
    rw [mem_insertByName]
    simp [ih]

/-- The `__Type.inputFields` resolver.  It takes no `includeDeprecated`
argument; for an InputObject it maps every entry of `InputFields` to an
`__InputValue`, marking it deprecated when `FieldDeprecations` holds a
non-empty reason, and sorts by name.  All other kinds yield the empty list. -/
def inputFieldsResolver (t : GType) : List InputValue :=
  match t with
  | .inputObject _ inputFields fieldDeprecations _ =>
    sortByName (fun iv => iv.name)
      (inputFields.map (fun p =>
        match mapLookup fieldDeprecations p.1 with
        | some d =>
          if d ≠ "" then
            { name := p.1, type := p.2, isDeprecated := true, deprecationReason := some d }
          else
            { name := p.1, type := p.2 }
        | none => { name := p.1, type := p.2 }))
  | _ => []

/-- The argument list built inside the `__Type.fields` resolver for one field:
each argument becomes an `__InputValue` with `IsDeprecated: false`,
`DeprecationReason: nil`, sorted by name. -/
def fieldArgValues (args : List (String × GType)) : List InputValue :=
  sortByName (fun iv => iv.name)
    (args.map (fun p =>
      { name := p.1, type := p.2, isDeprecated := false, deprecationReason := none }))

/-- The `__Field` record built for one entry of an Object's or Interface's
field map. -/
def introFieldOf (p : String × GField) : IntroField :=
  { name := p.1
    description := ""
    type := p.2.type
    args := fieldArgValues p.2.args
    isDeprecated := p.2.isDeprecated
    deprecationReason := p.2.deprecationReason }

/-- The `__Type.fields(includeDeprecated)` resolver.  The argument struct
`struct{ IncludeDeprecated *bool }` is accepted but never read: every declared
field of an Object or Interface is emitted, deprecated or not. -/
def fieldsResolver (t : GType) (includeDeprecated : Option Bool) : List IntroField :=
  match t with
  | .object _ _ fields _ => sortByName (fun f => f.name) (fields.map introFieldOf)
  | .interfaceT _ _ fields _ => sortByName (fun f => f.name) (fields.map introFieldOf)
  | _ => []

/-- The `__Type.enumValues(includeDeprecated)` resolver.  The argument is
likewise never read; every entry of the enum's `ReverseMap` is emitted with
`IsDeprecated: false`, the key's print form as description, sorted by name. -/
def enumValuesResolver (t : GType) (includeDeprecated : Option Bool) : List EnumValue :=
  match t with
  | .enum _ _ reverseMap =>
    sortByName (fun ev => ev.name)
      (reverseMap.map (fun p =>
        { name := p.2, description := p.1, isDeprecated := false, deprecationReason := none }))
  | _ => []

/-! ### The built-in directive table

The five package-level `Directive` values advertised by `__schema.directives`
(`includeDirective`, `skipDirective`, `specifiedByDirective`,
`deprecatedDirective`, `oneOfDirective`). -/

def includeDirective : Directive :=
  { name := "include"
    description := "Directs the executor to include this field or fragment only when the `if` argument is true."
    locations := ["FIELD", "FRAGMENT_SPREAD", "INLINE_FRAGMENT"]
    args := [{ name := "if", type := .scalar "Boolean" "", description := "Included when true." }] }

def skipDirective : Directive :=
  { name := "skip"
    description := "Directs the executor to skip this field or fragment only when the `if` argument is true."
    locations := ["FIELD", "FRAGMENT_SPREAD", "INLINE_FRAGMENT"]
    args := [{ name := "if", type := .scalar "Boolean" "", description := "Skipped when true." }] }

def specifiedByDirective : Directive :=
  { name := "specifiedBy"
    description := "Exposes a URL that specifies the behaviour of this scalar."
    locations := ["SCALAR"]
    args := [{ name := "url", type := .scalar "String" ""
               description := "The URL that specifies the behaviour of this scalar." }] }

def deprecatedDirective : Directive :=
  { name := "deprecated"
    description := "Marks an element of a GraphQL schema as no longer supported."
    locations := ["FIELD", "ARGUMENT_DEFINITION", "INPUT_FIELD_DEFINITION"]
    args := [{ name := "reason", type := .scalar "String" ""
               description := "Explains why this element was deprecated, usually also including a suggestion for how to access supported similar data."
               defaultValue := some "No longer supported" }] }

def oneOfDirective : Directive :=
  { name := "oneOf"
    description := "Indicates that an Input Object is a OneOf Input Object (and thus requires exactly one field to be set in a query or mutation)."
    locations := ["INPUT_OBJECT"]
    args := [] }

/-- The `__Type.directives` helper: `@oneOf` for a OneOf InputObject, nothing
for any other variant. -/
def typeDirectivesResolver (t : GType) : List Directive :=
  match t with
  | .inputObject _ _ _ oneOf => if oneOf then [oneOfDirective] else []
  | _ => []

/-! ### `collectTypes`

`collectTypes(typ, types)` walks the type graph and indexes every named type
by its name, returning early when the name is already present.  Objects,
interfaces and input objects recurse into their field result types and
argument types; interfaces and unions also into their member objects; `List`
and `NonNull` unwrap.  The Go loops over field/argument maps become the
mutually recursive list walks below. -/

mutual
def collectTypes : GType → List (String × GType) → List (String × GType)
  | t@(.object name _ fields _), types =>
    if (mapLookup types name).isSome then types
    else collectFieldList fields (mapInsert types name t)
  | t@(.union name _ members), types =>
    if (mapLookup types name).isSome then types
    else collectTypeList members (mapInsert types name t)
  | t@(.interfaceT name _ fields members), types =>
    if (mapLookup types name).isSome then types
    else collectTypeList members (collectFieldList fields (mapInsert types name t))
  | .list inner, types => collectTypes inner types
  | t@(.scalar name _), types =>
    if (mapLookup types name).isSome then types
    else mapInsert types name t
  | t@(.enum name _ _), types =>
    if (mapLookup types name).isSome then types
    else mapInsert types name t
  | t@(.inputObject name inputFields _ _), types =>
    if (mapLookup types name).isSome then types
    else collectNamedTypeList inputFields (mapInsert types name t)
  | .nonNull inner, types => collectTypes inner types

def collectFieldList : List (String × GField) → List (String × GType) → List (String × GType)
  | [], types => types
  | (_, .mk fty args _ _) :: rest, types =>
    collectFieldList rest (collectNamedTypeList args (collectTypes fty types))

def collectNamedTypeList : List (String × GType) → List (String × GType) → List (String × GType)
  | [], types => types
  | (_, t) :: rest, types => collectNamedTypeList rest (collectTypes t types)

def collectTypeList : List GType → List (String × GType) → List (String × GType)
  | [], types => types
  | t :: rest, types => collectTypeList rest (collectTypes t types)
end

/-- `AddIntrospectionToSchema` collects the types reachable from the three
roots, in the order Query, Mutation, Subscription, into one index. -/
def collectSchemaTypes (query mutation subscription : GType) : List (String × GType) :=
  collectTypes subscription (collectTypes mutation (collectTypes query []))

/-- The `__schema` field's resolver builds this value (the `Directives` slice
is the literal five-element list). -/
structure IntroSchema where
  types : List GType
  queryType : GType
  mutationType : GType
  subscriptionType : GType
  directives : List Directive

/-- The value returned by the `__schema` resolver registered on the overlay
Query object. -/
def schemaResolver (typeIndex : List (String × GType)) (query mutation subscription : GType) :
    IntroSchema :=
  { types := sortByName nameResolver (typeIndex.map (fun p => p.2))
    queryType := query
    mutationType := mutation
    subscriptionType := subscription
    directives := [includeDirective, skipDirective, specifiedByDirective,
                   deprecatedDirective, oneOfDirective] }

/-- The `__type(name: String)` resolver: a lookup in the collected index. -/
def typeNameResolver (typeIndex : List (String × GType)) (name : String) : Option GType :=
  mapLookup typeIndex name

/-- Stated from the spec's words (§4.6): the `__TypeKind` each named type
variant must report — SCALAR, OBJECT, INTERFACE, UNION, ENUM or INPUT_OBJECT;
the wrappers List and NonNull are not named types. -/
def specKindOfVariant : GType → Option String
  | .scalar .. => some "SCALAR"
  | .enum .. => some "ENUM"
  | .object .. => some "OBJECT"
  | .interfaceT .. => some "INTERFACE"
  | .union .. => some "UNION"
  | .inputObject .. => some "INPUT_OBJECT"
  | .list _ => none
  | .nonNull _ => none

/-- Invariant of the collected type index: every entry is keyed by its type's
name and holds a named (non-wrapper) type whose introspected kind agrees with
the spec's kind table. -/
def TypeIndexInv (types : List (String × GType)) : Prop :=
  ∀ p ∈ types, p.1 = nameResolver p.2 ∧ specKindOfVariant p.2 = some (kindResolver p.2)

theorem typeIndexInv_cons {types : List (String × GType)} {n : String} {t : GType}
    (h : TypeIndexInv types) (h1 : n = nameResolver t)
    (h2 : specKindOfVariant t = some (kindResolver t)) :
    TypeIndexInv (mapInsert types n t) := by
  intro p hp
  rcases List.mem_cons.mp hp with rfl | hp
  · exact ⟨h1, h2⟩
  · exact h p hp

/-- `collectTypes` (and the walks it performs over field, argument and member
lists) preserves the type-index invariant: it only ever inserts a named type
under its own name. -/
theorem collectTypes_inv :
    ∀ (t : GType) (types : List (String × GType)),
      TypeIndexInv types → TypeIndexInv (collectTypes t types) := by
  refine collectTypes.induct
    (fun t types => TypeIndexInv types → TypeIndexInv (collectTypes t types))
    (fun l types => TypeIndexInv types → TypeIndexInv (collectNamedTypeList l types))
    (fun l types => TypeIndexInv types → TypeIndexInv (collectTypeList l types))
    (fun l types => TypeIndexInv types → TypeIndexInv (collectFieldList l types))
    ?_ ?_ ?_ ?_ ?_ ?_ ?_ ?_ ?_ ?_ ?_ ?_ ?_ ?_ ?_ ?_ ?_ ?_ ?_ ?_
  · intro name description fields interfaces types hm h
    simpa [collectTypes, hm] using h
  · intro name description fields interfaces types hm ih h
    simp only [collectTypes, hm, if_false]
    exact ih (typeIndexInv_cons h rfl rfl)
  · intro name description members types hm h
    simpa [collectTypes, hm] using h
  · intro name description members types hm ih h
    simp only [collectTypes, hm, if_false]
    exact ih (typeIndexInv_cons h rfl rfl)
  · intro name description fields members types hm h
    simpa [collectTypes, hm] using h
  · intro name description fields members types hm ih1 ih2 h
    simp only [collectTypes, hm, if_false]
    exact ih2 (ih1 (typeIndexInv_cons h rfl rfl))
  · intro inner types ih h
    simpa [collectTypes] using ih h
  · intro name specifiedByURL types hm h
    simpa [collectTypes, hm] using h
  · intro name specifiedByURL types hm h
    simp only [collectTypes, hm, if_false]
    exact typeIndexInv_cons h rfl rfl
  · intro name values reverseMap types hm h
    simpa [collectTypes, hm] using h
  · intro name values reverseMap types hm h
    simp only [collectTypes, hm, if_false]
    exact typeIndexInv_cons h rfl rfl
  · intro name inputFields fieldDeprecations oneOf types hm h
    simpa [collectTypes, hm] using h
  · intro name inputFields fieldDeprecations oneOf types hm ih h
    simp only [collectTypes, hm, if_false]
    exact ih (typeIndexInv_cons h rfl rfl)
  · intro inner types ih h
    simpa [collectTypes] using ih h
  · intro types h
    simpa [collectNamedTypeList] using h
  · intro fst t rest types ih1 ih2 h
    simp only [collectNamedTypeList]
    exact ih2 (ih1 h)
  · intro types h
    simpa [collectTypeList] using h
  · intro t rest types ih1 ih2 h
    simp only [collectTypeList]
    exact ih2 (ih1 h)
  · intro types h
    simpa [collectFieldList] using h
  · intro fst fty args isDeprecated deprecationReason rest types ih1 ih2 ih3 h
    simp only [collectFieldList]
    exact ih3 (ih2 (ih1 h))

/-- The index built from the three roots satisfies the invariant. -/
theorem collectSchemaTypes_inv (query mutation subscription : GType) :
    TypeIndexInv (collectSchemaTypes query mutation subscription) := by
  refine collectTypes_inv _ _ (collectTypes_inv _ _ (collectTypes_inv _ _ ?_))
  intro p hp
  simp at hp

/-! ## Input-object argument coercion (`schemabuilder/input_object.go`)

`makeInputObjectParser` synthesizes the `FromJSON` closure for an inline
resolver args struct; `generateObjectParserInner` synthesizes it for a
registered `InputObject`.  The per-field closures produced by recursive parser
generation are carried as explicit functions; the embedding keeps only the
success/error observation of filling the destination struct. -/

/-- Modelled from the spec: the helper `validateOneOfInput` (referenced by
`makeInputObjectParser` and `generateObjectParserInner`; its defining file,
`schemabuilder/input.go`, is not among the sources) — "the raw map must have
exactly one entry whose value is not JSON-null; zero or ≥2 non-null fields
fails with a message naming the input type". -/
def validateOneOfInput (typeName : String) (asMap : List (String × JSON)) :
    Except String Unit :=
  if (asMap.filter (fun p => !p.2.isNull)).length = 1 then .ok ()
  else .error ("exactly one non-null field must be provided for oneOf input object " ++ typeName)

/-- The number of non-null members of a raw JSON object. -/
def countNonNull (asMap : List (String × JSON)) : Nat :=
  (asMap.filter (fun p => !p.2.isNull)).length

/-- The field loop of `makeInputObjectParser`'s `FromJSON`: for every
registered field, run its conversion on `asMap[name]` (a missing key reads
back as Go `nil`, i.e. JSON null); a failure is wrapped as `NAME: err`. -/
def runArgFields (asMap : List (String × JSON))
    (fields : List (String × (JSON → Except String Unit))) : Except String Unit :=
  match fields with
  | [] => .ok ()
  | (name, conv) :: rest =>
    match conv ((mapLookup asMap name).getD .null) with
    | .error e => .error (name ++ ": " ++ e)
    | .ok _ => runArgFields asMap rest

/-- The unknown-key loop of `makeInputObjectParser`'s `FromJSON`: every key of
the raw map must be a registered field. -/
def checkUnknownArgs (asMap : List (String × JSON))
    (fields : List (String × (JSON → Except String Unit))) : Except String Unit :=
  match asMap with
  | [] => .ok ()
  | (k, _) :: rest =>
    if (mapLookup fields k).isSome then checkUnknownArgs rest fields
    else .error ("unknown arg " ++ k)

/-- The `FromJSON` closure returned by `makeInputObjectParser` for an inline
args struct: reject non-objects; when the struct is flagged OneOf, validate
first; then convert every registered field; then reject unknown keys. -/
def argStructFromJSON (typeName : String) (oneOf : Bool)
    (fields : List (String × (JSON → Except String Unit))) (value : JSON) :
    Except String Unit :=
  match value with
  | .obj asMap =>
    if oneOf then
      match validateOneOfInput typeName asMap with
      | .error e => .error e
      | .ok _ =>
        match runArgFields asMap fields with
        | .error e => .error e
        | .ok _ => checkUnknownArgs asMap fields
    else
      match runArgFields asMap fields with
      | .error e => .error e
      | .ok _ => checkUnknownArgs asMap fields
  | _ => .error "not an object"

/-- One registered field of an `InputObject`: the parser generated for the
`FieldFunc`'s source type, and the conversion callable's error observation on
the parsed source value. -/
structure RegisteredField where
  parse : JSON → Except String Unit
  convert : JSON → Option String

/-- The field loop of `generateObjectParserInner`'s `FromJSON`: keys missing
from the raw map are skipped; a parse failure is wrapped as `NAME : err`; an
error returned by the conversion callable is propagated as is.  Keys of the
raw map that match no registered field are never looked at. -/
def runRegisteredFields (asMap : List (String × JSON))
    (fields : List (String × RegisteredField)) : Except String Unit :=
  match fields with
  | [] => .ok ()
  | (name, f) :: rest =>
    match mapLookup asMap name with
    | none => runRegisteredFields asMap rest
    | some v =>
      match f.parse v with
      | .error e => .error (name ++ " : " ++ e)
      | .ok _ =>
        match f.convert v with
        | some e => .error e
        | none => runRegisteredFields asMap rest

/-- The `FromJSON` closure returned by `generateObjectParserInner` for a
registered `InputObject`: reject non-objects; when the type is flagged OneOf,
validate first; then run the registered fields.  There is no unknown-key
check on this path. -/
def registeredInputObjectFromJSON (typeName : String) (oneOf : Bool)
    (fields : List (String × RegisteredField)) (value : JSON) : Except String Unit :=
  match value with
  | .obj asMap =>
    if oneOf then
      match validateOneOfInput typeName asMap with
      | .error e => .error e
      | .ok _ => runRegisteredFields asMap fields
    else runRegisteredFields asMap fields
  | _ => .error "not an object"

/-! ## Struct-tag parsing (`schemabuilder/reflect.go`)

A `reflect.StructField` is reduced to what `parseGraphQLFieldInfo` reads: the
Go field name, `PkgPath` (empty iff exported), and the results of
`Tag.Get("graphql")` / `Tag.Get("json")` — which return `""` when the tag is
absent. -/

structure StructField where
  name : String
  pkgPath : String := ""
  graphqlTag : String := ""
  jsonTag : String := ""

structure GraphQLFieldInfo where
  skipped : Bool := false
  name : String := ""
  keyField : Bool := false
  optionalInputField : Bool := false
  deprecationReason : String := ""
  description : String := ""

/-- `makeGraphql` converts a field name `MyField` into a graphQL field name
`myField`: the first rune is lowercased, every later rune is copied. -/
def makeGraphql (s : String) : String :=
  match s.data with
  | [] => ""
  | c :: cs => ⟨c.toLower :: cs⟩

/-- `strings.Split(s, ",")`: split at every comma; the empty string yields a
single empty component. -/
def splitCommaChars : List Char → List String
  | [] => [""]
  | c :: cs =>
    if c = ',' then "" :: splitCommaChars cs
    else
      match splitCommaChars cs with
      | [] => [⟨[c]⟩]
      | s :: rest => ⟨c :: s.data⟩ :: rest

def splitComma (s : String) : List String := splitCommaChars s.data

/-- `tags[0]` behind Go's `len(tags) > 0` guard (`strings.Split` never
returns an empty slice; the guard's fallback is the empty name). -/
def headOrEmpty : List String → String
  | [] => ""
  | s :: _ => s

/-- `strings.TrimSpace`: strip whitespace runes from both ends. -/
def trimSpace (s : String) : String :=
  ⟨((s.data.dropWhile Char.isWhitespace).reverse.dropWhile Char.isWhitespace).reverse⟩

/-- The option loop of `parseGraphQLFieldInfo` over `tags[1:]`: each option is
trimmed; `deprecated=R` sets the deprecation reason, `description=D` the
description, `optional` the optional flag; anything else is ignored. -/
def applyTagOptions (info : GraphQLFieldInfo) (opts : List String) : GraphQLFieldInfo :=
  opts.foldl
    (fun info opt =>
      let opt := trimSpace opt
      if opt.startsWith "deprecated=" then
        { info with deprecationReason := opt.drop "deprecated=".length }
      else if opt.startsWith "description=" then
        { info with description := opt.drop "description=".length }
      else if opt = "optional" then { info with optionalInputField := true }
      else info)
    info

/-- `parseGraphQLFieldInfo`: unexported fields are skipped; the tag is the
`graphql` tag, falling back to the `json` tag when that read back empty; the
trimmed first comma-separated component is the name — `-` skips the field, a
blank component falls back to `makeGraphql` of the Go name; the remaining
components are tag options. -/
def parseGraphQLFieldInfo (field : StructField) : GraphQLFieldInfo :=
  if field.pkgPath ≠ "" then { skipped := true }
  else
    let tag := if field.graphqlTag = "" then field.jsonTag else field.graphqlTag
    let tags := splitComma tag
    let name := trimSpace (headOrEmpty tags)
    if name = "-" then { skipped := true }
    else
      let name := if name = "" then makeGraphql field.name else name
      applyTagOptions { name := name } tags.tail

/-! ## Field registration (`schemabuilder/types.go`)

`Object.FieldFunc(name, f, opts...)` builds a `method` from the applied
options and records it in the object's method map, panicking on a duplicate
name.  The resolver callable `f` is kept as an opaque handle.  The panic is
embedded as `Except.error`. -/

inductive FieldOption where
  | fieldDesc (description : String)
  | deprecated (reason : String)
  | nonNull

structure FieldConfig where
  description : String := ""
  deprecated : String := ""
  nonNull : Bool := false

def applyFieldOptions (opts : List FieldOption) : FieldConfig :=
  opts.foldl
    (fun cfg opt =>
      match opt with
      | .fieldDesc d => { cfg with description := d }
      | .deprecated r => { cfg with deprecated := r }
      | .nonNull => { cfg with nonNull := true })
    {}

structure Method where
  fn : Nat
  description : String := ""
  markedNonNullable : Bool := false
  deprecationReason : Option String := none

structure Object where
  name : String
  description : String := ""
  key : String := ""
  methods : List (String × Method) := []

/-- `Object.FieldFunc`: build the `method` from the options, panic with
`duplicate method` when the name is already registered, otherwise record it. -/
def Object.FieldFunc (s : Object) (name : String) (fn : Nat) (opts : List FieldOption) :
    Except String Object :=
  let cfg := applyFieldOptions opts
  let m : Method :=
    { fn := fn
      description := cfg.description
      markedNonNullable := cfg.nonNull
      deprecationReason := if cfg.deprecated ≠ "" then some cfg.deprecated else none }
  if (mapLookup s.methods name).isSome then .error "duplicate method"
  else .ok { s with methods := mapInsert s.methods name m }

/-! ## The scalar registry (`schemabuilder/types.go`, `RegisterScalar`)

The package-level maps `scalars : map[reflect.Type]string` and
`scalarSpecifiedByURLs : map[reflect.Type]string` index native types; a
`reflect.Type` identity is embedded as a string token.  The unmarshal
function is not claim-relevant and is dropped. -/

inductive ScalarOption where
  | withSpecifiedBy (url : String)

structure ScalarConfig where
  specifiedByURL : String := ""

def applyScalarOptions (opts : List ScalarOption) : ScalarConfig :=
  opts.foldl (fun cfg opt => match opt with | .withSpecifiedBy url => { cfg with specifiedByURL := url }) {}

structure ScalarRegistry where
  scalars : List (String × String) := []
  specifiedByURLs : List (String × String) := []

/-- `RegisterScalar(typ, name, uf, opts...)`: store the scalar name, and the
`@specifiedBy` URL only when the applied options produced a non-empty one. -/
def registerScalar (reg : ScalarRegistry) (typ name : String) (opts : List ScalarOption) :
    ScalarRegistry :=
  let cfg := applyScalarOptions opts
  { scalars := mapInsert reg.scalars typ name
    specifiedByURLs :=
      if cfg.specifiedByURL ≠ "" then mapInsert reg.specifiedByURLs typ cfg.specifiedByURL
      else reg.specifiedByURLs }

/-- `getScalarSpecifiedByURL`: the registered URL, or `""` when unset. -/
def getScalarSpecifiedByURL (reg : ScalarRegistry) (typ : String) : String :=
  (mapLookup reg.specifiedByURLs typ).getD ""

/-- Modelled from the spec: the build step (`schemabuilder/build.go`, not
among the sources) constructs the `graphql.Scalar` for a registered native
type from the scalar registry, attaching `getScalarSpecifiedByURL`'s result
as `SpecifiedByURL`. -/
def buildScalar (reg : ScalarRegistry) (typ : String) : GType :=
  .scalar ((mapLookup reg.scalars typ).getD "") (getScalarSpecifiedByURL reg typ)

/-! ## The HTTP handler (`http.go`)

`httpHandler.ServeHTTP` serves the embedded playground on GET and HEAD,
rejects every other non-POST method, and otherwise decodes the posted body,
parses, validates and executes the query.  The parser, validator and executor
live in the `graphql` package, whose request-path code is not among the
sources; they enter the embedding as explicit function arguments, which also
makes the handler's evaluation order visible in the theorems.  The handler
always answers HTTP 200 with a JSON envelope on the GraphQL path, so the
response is the envelope itself. -/

/-- Modelled from the spec: a `jerrors.Error` (package `jerrors`, not among
the sources) carries `message`, `extensions` — at minimum a code field,
defaulting to `{code: "Unknown"}` — and `paths`. -/
structure JError where
  message : String
  code : String
  paths : List String

/-- Modelled from the spec: `jerrors.ConvertError` wraps a plain error into
the envelope error shape with code `Unknown` and empty paths. -/
def convertError (message : String) : JError :=
  { message := message, code := "Unknown", paths := [] }

/-- A decoded `httpPostBody`; `vars` is the `Variables` member (the Go name
collides with a Lean keyword). -/
structure PostBody where
  query : String
  vars : List (String × JSON) := []

/-- An incoming request, as far as `ServeHTTP` reads it: the method, the URL
path, and the body — `none` embeds `r.Body == nil`, `some (.error e)` a body
whose JSON decoding fails, `some (.ok b)` a decoded body. -/
structure HTTPRequest where
  method : String
  path : String := "/graphql"
  body : Option (Except String PostBody) := none

/-- The parsed operation as the handler reads it: `Kind` and the selection
set handed to the validator (`SS` stands in for `graphql.SelectionSet`). -/
structure ParsedQuery (SS : Type) where
  kind : String
  name : String := ""
  selectionSet : SS

/-- What `ServeHTTP` writes: the playground page for GET/HEAD, or the JSON
envelope `{data, errors}` (always HTTP 200). -/
inductive HTTPResponse (Out : Type) where
  | playground (title : String) (endpoint : String)
  | envelope (data : Option Out) (errors : List JError)

/-- The tail of `ServeHTTP` from root selection onwards: validate the
selection set against the chosen root, then execute; each failure is written
through `writeResponse`, i.e. `jerrors.ConvertError`. -/
def runAtRoot {SS Out : Type} (validate : GType → SS → Option String)
    (exec : GType → ParsedQuery SS → Except String Out)
    (root : GType) (query : ParsedQuery SS) : HTTPResponse Out :=
  match validate root query.selectionSet with
  | some e => .envelope none [convertError e]
  | none =>
    match exec root query with
    | .error e => .envelope none [convertError e]
    | .ok out => .envelope (some out) []

/-- `httpHandler.ServeHTTP`: GET and HEAD serve the playground with the
request path as endpoint; any other non-POST method is rejected with
`request must be a POST`; a nil body with `request must include a query`;
then decode, parse, pick the root — Mutation only when `query.Kind ==
"mutation"`, Query otherwise — validate and execute. -/
def serveHTTP {SS Out : Type} (schemaQuery schemaMutation : GType)
    (parse : String → List (String × JSON) → Except String (ParsedQuery SS))
    (validate : GType → SS → Option String)
    (exec : GType → ParsedQuery SS → Except String Out)
    (r : HTTPRequest) : HTTPResponse Out :=
  if r.method = "GET" ∨ r.method = "HEAD" then
    .playground "Jaal GraphQL Playground" r.path
  else if r.method ≠ "POST" then
    .envelope none [convertError "request must be a POST"]
  else
    match r.body with
    | none => .envelope none [convertError "request must include a query"]
    | some (.error e) => .envelope none [convertError e]
    | some (.ok params) =>
      match parse params.query params.vars with
      | .error e => .envelope none [convertError e]
      | .ok query =>
        let root := if query.kind = "mutation" then schemaMutation else schemaQuery
        runAtRoot validate exec root query

/-! ## The checked properties -/

theorem mapLookup_none_of_key_not_mem {α : Type} {m : List (String × α)} {k : String}
    (h : k ∈ m.map Prod.fst → False) : mapLookup m k = none := by
  cases hm : mapLookup m k with
  | none => rfl
  | some v =>
    exact absurd (List.mem_map.mpr ⟨(k, v), mapLookup_mem hm, rfl⟩) h

theorem key_mem_of_mapLookup_isSome {α : Type} {m : List (String × α)} {k : String}
    (h : (mapLookup m k).isSome) : k ∈ m.map Prod.fst := by
  cases hm : mapLookup m k with
  | none => rw [hm] at h; simp at h
  | some v => exact List.mem_map.mpr ⟨(k, v), mapLookup_mem hm, rfl⟩

/-- C10: registering a field name that is already present on the Object
panics with `duplicate method` (never an error value, never deferred), and a
successful registration preserves distinctness of the method map's keys, so
the map holds at most one entry per field name. -/
theorem fieldFunc_duplicate_method (s : Object) (name : String) (fn : Nat)
    (opts : List FieldOption) :
    ((mapLookup s.methods name).isSome → s.FieldFunc name fn opts = .error "duplicate method") ∧
    (∀ s', s.FieldFunc name fn opts = .ok s' →
      (s.methods.map Prod.fst).Nodup → (s'.methods.map Prod.fst).Nodup) := by
  constructor
  · intro h
    simp [Object.FieldFunc, h]
  · intro s' hok hnd
    by_cases h : (mapLookup s.methods name).isSome
    · simp [Object.FieldFunc, h] at hok
    · simp [Object.FieldFunc, h] at hok
      subst hok
      simp only [mapInsert, List.map_cons, List.nodup_cons]
      refine ⟨fun hmem => ?_, hnd⟩
      rcases List.mem_map.mp hmem with ⟨p, hp, hpk⟩
      have hpair : (name, p.2) ∈ s.methods := by
        rw [← hpk]
        simpa using hp
      exact h (mapLookup_isSome_of_key_mem hpair)

/-- C10 witness: on an Object already holding field `id`, a second `id`
registration panics with `duplicate method`; a fresh registration keeps the
keys distinct. -/
theorem fieldFunc_duplicate_method_witness :
    ({ name := "User", methods := [("id", { fn := 0 })] } : Object).FieldFunc "id" 1 []
        = .error "duplicate method" ∧
    (List.map Prod.fst (({ name := "User", methods := [("id", { fn := 0 })] } : Object).methods)).Nodup := by
  constructor
  · exact (fieldFunc_duplicate_method { name := "User", methods := [("id", { fn := 0 })] }
      "id" 1 []).1 (by simp [mapLookup])
  · simp

/-- C5: for every built schema with introspection added, `__schema.directives`
is exactly the five built-in directives `@include`, `@skip`, `@specifiedBy`,
`@deprecated` and `@oneOf`, with the locations FIELD / FRAGMENT_SPREAD /
INLINE_FRAGMENT for include and skip, SCALAR for specifiedBy, FIELD /
ARGUMENT_DEFINITION / INPUT_FIELD_DEFINITION for deprecated, and INPUT_OBJECT
for oneOf. -/
theorem schema_directives_builtin (typeIndex : List (String × GType))
    (query mutation subscription : GType) :
    (schemaResolver typeIndex query mutation subscription).directives.map
        (fun d => (d.name, d.locations)) =
      [("include", ["FIELD", "FRAGMENT_SPREAD", "INLINE_FRAGMENT"]),
       ("skip", ["FIELD", "FRAGMENT_SPREAD", "INLINE_FRAGMENT"]),
       ("specifiedBy", ["SCALAR"]),
       ("deprecated", ["FIELD", "ARGUMENT_DEFINITION", "INPUT_FIELD_DEFINITION"]),
       ("oneOf", ["INPUT_OBJECT"])] := rfl

/-- C4: the `specifiedByURL` introspection field of a scalar registered with
`WithSpecifiedBy(url)` is that URL; for a scalar registered without a URL on
a registry that holds none for its type (the built-ins included), and for
every non-scalar type, it is null. -/
theorem specifiedByURL_of_registration (reg : ScalarRegistry) (typ name url : String) :
    (url ≠ "" →
      specifiedByURLResolver
          (buildScalar (registerScalar reg typ name [.withSpecifiedBy url]) typ) = some url) ∧
    (mapLookup reg.specifiedByURLs typ = none →
      specifiedByURLResolver (buildScalar (registerScalar reg typ name []) typ) = none) ∧
    (∀ t : GType, (∀ n u, t ≠ .scalar n u) → specifiedByURLResolver t = none) := by
  refine ⟨?_, ?_, ?_⟩
  · intro hu
    simp [specifiedByURLResolver, buildScalar, registerScalar, getScalarSpecifiedByURL,
      applyScalarOptions, mapInsert, mapLookup, hu]
  · intro hnone
    simp [specifiedByURLResolver, buildScalar, registerScalar, getScalarSpecifiedByURL,
      applyScalarOptions, mapInsert, mapLookup, hnone]
  · intro t ht
    cases t with
    | scalar n u => exact absurd rfl (ht n u)
    | _ => rfl

/-- C4 witness: a scalar `UUID` registered with the RFC 4122 URL reports it;
the built-in `String`, registered with no URL on the empty registry, and a
non-scalar object type report null. -/
theorem specifiedByURL_of_registration_witness :
    specifiedByURLResolver
        (buildScalar (registerScalar {} "uuid.UUID" "UUID"
          [.withSpecifiedBy "https://tools.ietf.org/html/rfc4122"]) "uuid.UUID")
      = some "https://tools.ietf.org/html/rfc4122" ∧
    specifiedByURLResolver (buildScalar (registerScalar {} "string" "String" []) "string") = none ∧
    specifiedByURLResolver (.object "User" "" [] []) = none := by
  refine ⟨?_, ?_, ?_⟩
  · exact (specifiedByURL_of_registration {} "uuid.UUID" "UUID"
      "https://tools.ietf.org/html/rfc4122").1 (by decide)
  · exact (specifiedByURL_of_registration {} "string" "String" "").2.1 rfl
  · exact (specifiedByURL_of_registration {} "" "" "").2.2 (.object "User" "" [] [])
      (fun n u h => by cases h)

theorem applyTagOptions_skipped (info : GraphQLFieldInfo) (opts : List String) :
    (applyTagOptions info opts).skipped = info.skipped := by
  induction opts generalizing info with
  | nil => rfl
  | cons o os ih =>
    simp only [applyTagOptions, List.foldl] at ih ⊢
    rw [ih]
    by_cases h1 : (trimSpace o).startsWith "deprecated=" = true
    · rw [if_pos h1]
    · rw [if_neg h1]
      by_cases h2 : (trimSpace o).startsWith "description=" = true
      · rw [if_pos h2]
      · rw [if_neg h2]
        by_cases h3 : trimSpace o = "optional"
        · rw [if_pos h3]
        · rw [if_neg h3]

theorem applyTagOptions_name (info : GraphQLFieldInfo) (opts : List String) :
    (applyTagOptions info opts).name = info.name := by
  induction opts generalizing info with
  | nil => rfl
  | cons o os ih =>
    simp only [applyTagOptions, List.foldl] at ih ⊢
    rw [ih]
    by_cases h1 : (trimSpace o).startsWith "deprecated=" = true
    · rw [if_pos h1]
    · rw [if_neg h1]
      by_cases h2 : (trimSpace o).startsWith "description=" = true
      · rw [if_pos h2]
      · rw [if_neg h2]
        by_cases h3 : trimSpace o = "optional"
        · rw [if_pos h3]
        · rw [if_neg h3]

/-- C8: an unexported field is always skipped; otherwise the name comes from
the first comma-separated component of the `graphql` tag — of the `json` tag
when the `graphql` tag read back empty: `-` skips the field, a blank
component (or no tag at all) falls back to the Go field name with only its
first rune lowercased, and any other component is taken verbatim. -/
theorem struct_field_naming (f : StructField) :
    (f.pkgPath ≠ "" → (parseGraphQLFieldInfo f).skipped = true) ∧
    (f.pkgPath = "" →
      (trimSpace (headOrEmpty (splitComma (if f.graphqlTag = "" then f.jsonTag else f.graphqlTag))) = "-" →
        (parseGraphQLFieldInfo f).skipped = true) ∧
      (trimSpace (headOrEmpty (splitComma (if f.graphqlTag = "" then f.jsonTag else f.graphqlTag))) ≠ "-" →
        (parseGraphQLFieldInfo f).skipped = false ∧
        (parseGraphQLFieldInfo f).name =
          (if trimSpace (headOrEmpty (splitComma (if f.graphqlTag = "" then f.jsonTag else f.graphqlTag))) = ""
           then makeGraphql f.name
           else trimSpace (headOrEmpty (splitComma (if f.graphqlTag = "" then f.jsonTag else f.graphqlTag)))))) := by
  have hsplit : ∀ h : ¬ (f.pkgPath ≠ ""),
      parseGraphQLFieldInfo f =
        (if trimSpace (headOrEmpty (splitComma
              (if f.graphqlTag = "" then f.jsonTag else f.graphqlTag))) = "-"
         then { skipped := true }
         else applyTagOptions
           { name :=
               if trimSpace (headOrEmpty (splitComma
                    (if f.graphqlTag = "" then f.jsonTag else f.graphqlTag))) = ""
               then makeGraphql f.name
               else trimSpace (headOrEmpty (splitComma
                    (if f.graphqlTag = "" then f.jsonTag else f.graphqlTag))) }
           (splitComma (if f.graphqlTag = "" then f.jsonTag else f.graphqlTag)).tail) := by
    intro h
    rw [parseGraphQLFieldInfo, if_neg h]
  refine ⟨?_, ?_⟩
  · intro h
    rw [parseGraphQLFieldInfo, if_pos h]
  · intro h
    have hpkg : ¬ (f.pkgPath ≠ "") := fun hc => hc h
    constructor
    · intro hdash
      rw [hsplit hpkg, if_pos hdash]
    · intro hdash
      rw [hsplit hpkg, if_neg hdash]
      exact ⟨applyTagOptions_skipped _ _, applyTagOptions_name _ _⟩

/-- C8 witness: `ID` with no tag maps to `iD`, `Value` to `value`; a
`json:"age,omitempty"` tag yields `age`; a `graphql` tag takes precedence
over a `json` tag; a `-` component and an unexported field are skipped. -/
theorem struct_field_naming_witness :
    (parseGraphQLFieldInfo { name := "ID" }).name = "iD" ∧
    (parseGraphQLFieldInfo { name := "Value" }).name = "value" ∧
    (parseGraphQLFieldInfo { name := "Age", jsonTag := "age,omitempty" }).name = "age" ∧
    (parseGraphQLFieldInfo { name := "N", graphqlTag := "gname", jsonTag := "jname" }).name = "gname" ∧
    (parseGraphQLFieldInfo { name := "Secret", graphqlTag := "-" }).skipped = true ∧
    (parseGraphQLFieldInfo { name := "hidden", pkgPath := "users" }).skipped = true := by
  refine ⟨?_, ?_, ?_, ?_, ?_, ?_⟩
  · rw [((struct_field_naming { name := "ID" }).2 rfl).2 (by decide) |>.2]
    decide
  · rw [((struct_field_naming { name := "Value" }).2 rfl).2 (by decide) |>.2]
    decide
  · rw [((struct_field_naming { name := "Age", jsonTag := "age,omitempty" }).2 rfl).2
      (by decide) |>.2]
    decide
  · rw [((struct_field_naming { name := "N", graphqlTag := "gname", jsonTag := "jname" }).2
      rfl).2 (by decide) |>.2]
    decide
  · exact ((struct_field_naming { name := "Secret", graphqlTag := "-" }).2 rfl).1 (by decide)
  · exact (struct_field_naming { name := "hidden", pkgPath := "users" }).1 (by decide)

theorem runArgFields_ok (asMap : List (String × JSON))
    (fields : List (String × (JSON → Except String Unit)))
    (h : ∀ p ∈ fields, p.2 ((mapLookup asMap p.1).getD .null) = .ok ()) :
    runArgFields asMap fields = .ok () := by
  induction fields with
  | nil => rfl
  | cons p rest ih =>
    obtain ⟨name, conv⟩ := p
    have hp : conv ((mapLookup asMap name).getD .null) = .ok () :=
      h (name, conv) (List.mem_cons_self _ _)
    simp only [runArgFields, hp]
    exact ih (fun q hq => h q (List.mem_cons_of_mem _ hq))

theorem checkUnknownArgs_ok (asMap : List (String × JSON))
    (fields : List (String × (JSON → Except String Unit)))
    (h : ∀ q ∈ asMap, (mapLookup fields q.1).isSome) :
    checkUnknownArgs asMap fields = .ok () := by
  induction asMap with
  | nil => rfl
  | cons q rest ih =>
    obtain ⟨k, v⟩ := q
    have hq := h (k, v) (List.mem_cons_self _ _)
    simp only [checkUnknownArgs, hq, if_true]
    exact ih (fun r hr => h r (List.mem_cons_of_mem _ hr))

theorem runRegisteredFields_ok (asMap : List (String × JSON))
    (fields : List (String × RegisteredField))
    (h : ∀ p ∈ fields, ∀ v, mapLookup asMap p.1 = some v →
      p.2.parse v = .ok () ∧ p.2.convert v = none) :
    runRegisteredFields asMap fields = .ok () := by
  induction fields with
  | nil => rfl
  | cons p rest ih =>
    obtain ⟨name, f⟩ := p
    have ihrest := ih (fun q hq => h q (List.mem_cons_of_mem _ hq))
    cases hv : mapLookup asMap name with
    | none => simpa only [runRegisteredFields, hv] using ihrest
    | some v =>
      have hp : f.parse v = .ok () ∧ f.convert v = none :=
        h (name, f) (List.mem_cons_self _ _) v hv
      simp only [runRegisteredFields, hv, hp.1, hp.2]
      exact ihrest

/-- C1: for a OneOf inline args struct and for a OneOf registered InputObject
alike, coercion validates the raw object before any per-field conversion: a
raw map with zero or two-or-more non-null members fails with the error naming
the input type, whatever the per-field converters would do; a raw map with
exactly one non-null member coerces successfully whenever the per-field
conversions succeed (and, on the inline path, every key is registered). -/
theorem oneOf_exactly_one_nonnull (typeName : String) (asMap : List (String × JSON))
    (fields : List (String × (JSON → Except String Unit)))
    (rfields : List (String × RegisteredField)) :
    (countNonNull asMap ≠ 1 →
      argStructFromJSON typeName true fields (.obj asMap) =
        .error ("exactly one non-null field must be provided for oneOf input object " ++ typeName) ∧
      registeredInputObjectFromJSON typeName true rfields (.obj asMap) =
        .error ("exactly one non-null field must be provided for oneOf input object " ++ typeName)) ∧
    (countNonNull asMap = 1 →
      ((∀ p ∈ fields, p.2 ((mapLookup asMap p.1).getD .null) = .ok ()) →
       (∀ q ∈ asMap, (mapLookup fields q.1).isSome) →
        argStructFromJSON typeName true fields (.obj asMap) = .ok ()) ∧
      ((∀ p ∈ rfields, ∀ v, mapLookup asMap p.1 = some v →
          p.2.parse v = .ok () ∧ p.2.convert v = none) →
        registeredInputObjectFromJSON typeName true rfields (.obj asMap) = .ok ())) := by
  constructor
  · intro hcount
    simp only [countNonNull] at hcount
    have hval : validateOneOfInput typeName asMap =
        .error ("exactly one non-null field must be provided for oneOf input object " ++ typeName) := by
      rw [validateOneOfInput, if_neg hcount]
    constructor
    · simp only [argStructFromJSON, hval, if_true]
    · simp only [registeredInputObjectFromJSON, hval, if_true]
  · intro hcount
    simp only [countNonNull] at hcount
    have hval : validateOneOfInput typeName asMap = .ok () := by
      rw [validateOneOfInput, if_pos hcount]
    constructor
    · intro hconv hknown
      simp only [argStructFromJSON, hval, if_true, runArgFields_ok asMap fields hconv]
      exact checkUnknownArgs_ok asMap fields hknown
    · intro hconv
      simp only [registeredInputObjectFromJSON, hval, if_true]
      exact runRegisteredFields_ok asMap rfields hconv

/-- C1 witness: for the OneOf input `Identifier` with members `id` and
`email`, the raw objects `{}` and `{id: "u1", email: "a@b"}` both fail with
the error naming `Identifier`, and `{id: "u1", email: null}` coerces. -/
theorem oneOf_exactly_one_nonnull_witness :
    argStructFromJSON "Identifier" true
        [("id", fun _ => .ok ()), ("email", fun _ => .ok ())] (.obj []) =
      .error "exactly one non-null field must be provided for oneOf input object Identifier" ∧
    registeredInputObjectFromJSON "Identifier" true []
        (.obj [("id", .str "u1"), ("email", .str "a@b")]) =
      .error "exactly one non-null field must be provided for oneOf input object Identifier" ∧
    argStructFromJSON "Identifier" true
        [("id", fun _ => .ok ()), ("email", fun _ => .ok ())]
        (.obj [("id", .str "u1"), ("email", .null)]) = .ok () := by
  refine ⟨?_, ?_, ?_⟩
  · exact ((oneOf_exactly_one_nonnull "Identifier" []
      [("id", fun _ => .ok ()), ("email", fun _ => .ok ())] []).1 (by decide)).1
  · exact ((oneOf_exactly_one_nonnull "Identifier" [("id", .str "u1"), ("email", .str "a@b")]
      [] []).1 (by decide)).2
  · have main := ((oneOf_exactly_one_nonnull "Identifier" [("id", .str "u1"), ("email", .null)]
      [("id", fun _ => .ok ()), ("email", fun _ => .ok ())] []).2 (by decide)).1
    refine main ?_ ?_
    · intro p hp
      fin_cases hp <;> rfl
    · intro q hq
      fin_cases hq <;> decide

/-- The first key of the raw map that matches no registered field — the key
the unknown-key loop of `makeInputObjectParser` reports. -/
def firstUnknownKey (asMap : List (String × JSON))
    (fields : List (String × (JSON → Except String Unit))) : Option String :=
  match asMap with
  | [] => none
  | (k, _) :: rest =>
    if (mapLookup fields k).isSome then firstUnknownKey rest fields else some k

theorem checkUnknownArgs_first (asMap : List (String × JSON))
    (fields : List (String × (JSON → Except String Unit))) (k : String)
    (h : firstUnknownKey asMap fields = some k) :
    checkUnknownArgs asMap fields = .error ("unknown arg " ++ k) := by
  induction asMap with
  | nil => simp [firstUnknownKey] at h
  | cons q rest ih =>
    obtain ⟨k', v⟩ := q
    by_cases hk : (mapLookup fields k').isSome
    · simp only [firstUnknownKey, hk, if_true] at h
      simp only [checkUnknownArgs, hk, if_true]
      exact ih h
    · simp only [firstUnknownKey, hk, if_false] at h
      cases h
      simp [checkUnknownArgs, hk]

theorem runRegisteredFields_all_missing (asMap : List (String × JSON))
    (fields : List (String × RegisteredField))
    (h : ∀ p ∈ fields, mapLookup asMap p.1 = none) :
    runRegisteredFields asMap fields = .ok () := by
  induction fields with
  | nil => rfl
  | cons p rest ih =>
    obtain ⟨name, f⟩ := p
    have hp : mapLookup asMap name = none := h (name, f) (List.mem_cons_self _ _)
    simp only [runRegisteredFields, hp]
    exact ih (fun q hq => h q (List.mem_cons_of_mem _ hq))

/-- C2 counterexample: coercing `{bogus: 1}` into a registered InputObject
with no field `bogus` succeeds instead of failing with `unknown arg bogus` —
the registered-InputObject path has no unknown-key check. -/
theorem unknown_arg_registered_counterexample :
    registeredInputObjectFromJSON "CreateUserInput" false []
        (.obj [("bogus", .number 1)]) = .ok () := rfl

/-- C2 (amended): the inline resolver-args path rejects the first
unregistered key with `unknown arg NAME` (once every per-field conversion
succeeded), while the registered-InputObject path ignores keys that match no
registered field: a raw map touching only unregistered keys coerces
successfully. -/
theorem unknown_arg_inline_only (typeName : String) (asMap : List (String × JSON))
    (fields : List (String × (JSON → Except String Unit)))
    (rfields : List (String × RegisteredField)) :
    (∀ k, firstUnknownKey asMap fields = some k →
      (∀ p ∈ fields, p.2 ((mapLookup asMap p.1).getD .null) = .ok ()) →
      argStructFromJSON typeName false fields (.obj asMap) =
        .error ("unknown arg " ++ k)) ∧
    ((∀ q ∈ asMap, mapLookup rfields q.1 = none) →
      registeredInputObjectFromJSON typeName false rfields (.obj asMap) = .ok ()) := by
  constructor
  · intro k hk hconv
    simp only [argStructFromJSON, Bool.false_eq_true, if_false,
      runArgFields_ok asMap fields hconv]
    exact checkUnknownArgs_first asMap fields k hk
  · intro hunk
    simp only [registeredInputObjectFromJSON, Bool.false_eq_true, if_false]
    refine runRegisteredFields_all_missing asMap rfields (fun p hp => ?_)
    cases hv : mapLookup asMap p.1 with
    | none => rfl
    | some v =>
      have hmem := mapLookup_mem hv
      have := hunk (p.1, v) hmem
      have hsome := mapLookup_isSome_of_key_mem (m := rfields) (by
        show (p.1, p.2) ∈ rfields
        simpa using hp)
      rw [this] at hsome
      cases hsome

/-- C2 witness: the inline path rejects `{bogus: 1}` on a field-less args
struct with `unknown arg bogus`, while the registered path accepts it. -/
theorem unknown_arg_inline_only_witness :
    argStructFromJSON "Args" false [] (.obj [("bogus", .number 1)]) =
      .error "unknown arg bogus" ∧
    registeredInputObjectFromJSON "CreateUserInput" false []
        (.obj [("bogus", .number 1)]) = .ok () := by
  constructor
  · exact (unknown_arg_inline_only "Args" [("bogus", .number 1)] [] []).1 "bogus"
      (by decide) (fun p hp => by cases hp)
  · exact (unknown_arg_inline_only "CreateUserInput" [("bogus", .number 1)] [] []).2
      (fun q hq => by fin_cases hq <;> rfl)

/-- C3 counterexample: on an Object whose field `old` is deprecated,
`fields(includeDeprecated: false)` still returns it, and on an InputObject
whose field `age` carries a deprecation reason, `inputFields` (which takes no
`includeDeprecated` argument at all) returns it marked deprecated. -/
theorem deprecation_filtering_counterexample :
    fieldsResolver
        (.object "User" "" [("old", .mk (.scalar "String" "") [] true (some "gone"))] [])
        (some false) =
      [{ name := "old", description := "", args := [], type := .scalar "String" ""
         isDeprecated := true, deprecationReason := some "gone" }] ∧
    inputFieldsResolver
        (.inputObject "CreateUserInput" [("age", .scalar "Int" "")]
          [("age", "Use birthdate instead")] false) =
      [{ name := "age", type := .scalar "Int" "", isDeprecated := true
         deprecationReason := some "Use birthdate instead" }] := by
  constructor
  · simp [fieldsResolver, introFieldOf, fieldArgValues, sortByName, insertByName,
      GField.type, GField.args, GField.isDeprecated, GField.deprecationReason]
  · simp [inputFieldsResolver, sortByName, insertByName, mapLookup]

/-- C3 (amended): the `includeDeprecated` argument of `fields` and
`enumValues` is accepted but ignored, and `inputFields` does not take one:
every declared field, enum value and input field is returned whether or not
it is deprecated — the output length always equals the declared count. -/
theorem deprecation_filtering_ignored :
    (∀ (t : GType) (b1 b2 : Option Bool), fieldsResolver t b1 = fieldsResolver t b2) ∧
    (∀ (t : GType) (b1 b2 : Option Bool), enumValuesResolver t b1 = enumValuesResolver t b2) ∧
    (∀ name description fields interfaces (b : Option Bool),
      (fieldsResolver (.object name description fields interfaces) b).length = fields.length) ∧
    (∀ name values reverseMap (b : Option Bool),
      (enumValuesResolver (.enum name values reverseMap) b).length = reverseMap.length) ∧
    (∀ name inputFields fieldDeprecations oneOf,
      (inputFieldsResolver (.inputObject name inputFields fieldDeprecations oneOf)).length =
        inputFields.length) := by
  refine ⟨fun t b1 b2 => rfl, fun t b1 b2 => rfl, ?_, ?_, ?_⟩
  · intro name description fields interfaces b
    simp [fieldsResolver, length_sortByName]
  · intro name values reverseMap b
    simp [enumValuesResolver, length_sortByName]
  · intro name inputFields fieldDeprecations oneOf
    simp [inputFieldsResolver, length_sortByName]

/-! ### Reachability and completeness of `collectTypes`

The type graph's edges are exactly the positions `collectTypes` recurses
into: field result types and argument types of Objects and Interfaces,
member objects of Interfaces and Unions, and input-field types of
InputObjects, with `List`/`NonNull` wrappers stripped on the way (the
recursion unwraps them without indexing them).  `Reaches` is the
reflexive-transitive closure of that edge relation between named types. -/

/-- Unwrap `List` and `NonNull` wrappers down to the named type below, the
way `collectTypes`' wrapper cases fall through to the wrapped type. -/
def stripWrappers : GType → GType
  | .list t => stripWrappers t
  | .nonNull t => stripWrappers t
  | t => t

/-- The types `collectTypes` visits for one field: its result type and its
argument types. -/
def fieldTargets (f : GField) : List GType :=
  f.type :: f.args.map (fun a => a.2)

/-- The types `collectTypes` recurses into from a given type. -/
def directChildren : GType → List GType
  | .object _ _ fields _ => (fields.map (fun p => fieldTargets p.2)).flatten
  | .interfaceT _ _ fields members =>
    (fields.map (fun p => fieldTargets p.2)).flatten ++ members
  | .union _ _ members => members
  | .inputObject _ inputFields _ _ => inputFields.map (fun p => p.2)
  | _ => []

/-- One edge of the schema's type graph: from a named type to a named type
sitting (under wrappers) in one of its child positions. -/
def SEdge (v u : GType) : Prop :=
  ∃ w ∈ directChildren v, stripWrappers w = u

/-- `T` is reachable from the named type below `root`. -/
def Reaches (root T : GType) : Prop :=
  Relation.ReflTransGen SEdge (stripWrappers root) T

/-- `T` is reachable from one of the schema's three roots. -/
def ReachableInSchema (query mutation subscription T : GType) : Prop :=
  Reaches query T ∨ Reaches mutation T ∨ Reaches subscription T

theorem mapInsert_lookup_isSome {α : Type} (acc : List (String × α)) (k : String)
    (v : α) (n : String) (h : (mapLookup acc n).isSome = true) :
    (mapLookup (mapInsert acc k v) n).isSome = true := by
  simp only [mapInsert, mapLookup]
  split <;> simp [h]

/-- Monotonicity: the collection walks only add entries — a name present in
the accumulator is present in every later accumulator. -/
theorem collect_mono_all :
    (∀ (t : GType) (acc : List (String × GType)) (n : String),
      (mapLookup acc n).isSome = true → (mapLookup (collectTypes t acc) n).isSome = true) ∧
    (∀ (l : List (String × GType)) (acc : List (String × GType)) (n : String),
      (mapLookup acc n).isSome = true →
        (mapLookup (collectNamedTypeList l acc) n).isSome = true) ∧
    (∀ (l : List GType) (acc : List (String × GType)) (n : String),
      (mapLookup acc n).isSome = true →
        (mapLookup (collectTypeList l acc) n).isSome = true) ∧
    (∀ (l : List (String × GField)) (acc : List (String × GType)) (n : String),
      (mapLookup acc n).isSome = true →
        (mapLookup (collectFieldList l acc) n).isSome = true) := by
  refine collectTypes.mutual_induct
    (fun t acc => ∀ n, (mapLookup acc n).isSome = true →
      (mapLookup (collectTypes t acc) n).isSome = true)
    (fun l acc => ∀ n, (mapLookup acc n).isSome = true →
      (mapLookup (collectNamedTypeList l acc) n).isSome = true)
    (fun l acc => ∀ n, (mapLookup acc n).isSome = true →
      (mapLookup (collectTypeList l acc) n).isSome = true)
    (fun l acc => ∀ n, (mapLookup acc n).isSome = true →
      (mapLookup (collectFieldList l acc) n).isSome = true)
    ?_ ?_ ?_ ?_ ?_ ?_ ?_ ?_ ?_ ?_ ?_ ?_ ?_ ?_ ?_ ?_ ?_ ?_ ?_ ?_
  · intro name description fields interfaces types hm n hn
    simpa [collectTypes, hm] using hn
  · intro name description fields interfaces types hm ih n hn
    simp only [collectTypes, hm, if_false]
    exact ih n (mapInsert_lookup_isSome _ _ _ _ hn)
  · intro name description members types hm n hn
    simpa [collectTypes, hm] using hn
  · intro name description members types hm ih n hn
    simp only [collectTypes, hm, if_false]
    exact ih n (mapInsert_lookup_isSome _ _ _ _ hn)
  · intro name description fields members types hm n hn
    simpa [collectTypes, hm] using hn
  · intro name description fields members types hm ih1 ih2 n hn
    simp only [collectTypes, hm, if_false]
    exact ih2 n (ih1 n (mapInsert_lookup_isSome _ _ _ _ hn))
  · intro inner types ih n hn
    simp only [collectTypes]
    exact ih n hn
  · intro name specifiedByURL types hm n hn
    simpa [collectTypes, hm] using hn
  · intro name specifiedByURL types hm n hn
    simp only [collectTypes, hm, if_false]
    exact mapInsert_lookup_isSome _ _ _ _ hn
  · intro name values reverseMap types hm n hn
    simpa [collectTypes, hm] using hn
  · intro name values reverseMap types hm n hn
    simp only [collectTypes, hm, if_false]
    exact mapInsert_lookup_isSome _ _ _ _ hn
  · intro name inputFields fieldDeprecations oneOf types hm n hn
    simpa [collectTypes, hm] using hn
  · intro name inputFields fieldDeprecations oneOf types hm ih n hn
    simp only [collectTypes, hm, if_false]
    exact ih n (mapInsert_lookup_isSome _ _ _ _ hn)
  · intro inner types ih n hn
    simp only [collectTypes]
    exact ih n hn
  · intro types n hn
    simpa [collectNamedTypeList] using hn
  · intro fst t rest types ih1 ih2 n hn
    simp only [collectNamedTypeList]
    exact ih2 n (ih1 n hn)
  · intro types n hn
    simpa [collectTypeList] using hn
  · intro t rest types ih1 ih2 n hn
    simp only [collectTypeList]
    exact ih2 n (ih1 n hn)
  · intro types n hn
    simpa [collectFieldList] using hn
  · intro fst fty args isDeprecated deprecationReason rest types ih1 ih2 ih3 n hn
    simp only [collectFieldList]
    exact ih3 n (ih2 n (ih1 n hn))

/-- Stripping wrappers never produces a wrapper, so the result carries a
named kind agreeing with the spec's table. -/
theorem strip_specKind : ∀ t : GType,
    specKindOfVariant (stripWrappers t) = some (kindResolver (stripWrappers t))
  | .list inner => strip_specKind inner
  | .nonNull inner => strip_specKind inner
  | .scalar _ _ => rfl
  | .enum _ _ _ => rfl
  | .object _ _ _ _ => rfl
  | .interfaceT _ _ _ _ => rfl
  | .union _ _ _ => rfl
  | .inputObject _ _ _ _ => rfl

/-- `collectTypes` treats a wrapped type exactly as its named core. -/
theorem collectTypes_strip : ∀ (t : GType) (acc : List (String × GType)),
    collectTypes t acc = collectTypes (stripWrappers t) acc
  | .list inner, acc => by
    simp only [collectTypes, stripWrappers]
    exact collectTypes_strip inner acc
  | .nonNull inner, acc => by
    simp only [collectTypes, stripWrappers]
    exact collectTypes_strip inner acc
  | .scalar _ _, _ => rfl
  | .enum _ _ _, _ => rfl
  | .object _ _ _ _, _ => rfl
  | .interfaceT _ _ _ _, _ => rfl
  | .union _ _ _, _ => rfl
  | .inputObject _ _ _ _, _ => rfl

/-- After `collectTypes t acc`, the name of the named type below `t` is in
the index: either it was already there (the early return), or the walk
inserted it before descending. -/
theorem collect_self_present : ∀ (t : GType) (acc : List (String × GType)),
    (mapLookup (collectTypes t acc) (nameResolver (stripWrappers t))).isSome = true
  | .list inner, acc => by
    simp only [collectTypes, stripWrappers]
    exact collect_self_present inner acc
  | .nonNull inner, acc => by
    simp only [collectTypes, stripWrappers]
    exact collect_self_present inner acc
  | .scalar name url, acc => by
    by_cases hm : (mapLookup acc name).isSome = true
    · simpa [collectTypes, hm, stripWrappers, nameResolver] using hm
    · simp only [stripWrappers, nameResolver, collectTypes, hm, if_false]
      simp [mapInsert, mapLookup]
  | .enum name values reverseMap, acc => by
    by_cases hm : (mapLookup acc name).isSome = true
    · simpa [collectTypes, hm, stripWrappers, nameResolver] using hm
    · simp only [stripWrappers, nameResolver, collectTypes, hm, if_false]
      simp [mapInsert, mapLookup]
  | .object name description fields interfaces, acc => by
    by_cases hm : (mapLookup acc name).isSome = true
    · simpa [collectTypes, hm, stripWrappers, nameResolver] using hm
    · simp only [stripWrappers, nameResolver, collectTypes, hm, if_false]
      exact collect_mono_all.2.2.2 fields _ name (by simp [mapInsert, mapLookup])
  | .interfaceT name description fields members, acc => by
    by_cases hm : (mapLookup acc name).isSome = true
    · simpa [collectTypes, hm, stripWrappers, nameResolver] using hm
    · simp only [stripWrappers, nameResolver, collectTypes, hm, if_false]
      exact collect_mono_all.2.2.1 members _ name
        (collect_mono_all.2.2.2 fields _ name (by simp [mapInsert, mapLookup]))
  | .union name description members, acc => by
    by_cases hm : (mapLookup acc name).isSome = true
    · simpa [collectTypes, hm, stripWrappers, nameResolver] using hm
    · simp only [stripWrappers, nameResolver, collectTypes, hm, if_false]
      exact collect_mono_all.2.2.1 members _ name (by simp [mapInsert, mapLookup])
  | .inputObject name inputFields fieldDeprecations oneOf, acc => by
    by_cases hm : (mapLookup acc name).isSome = true
    · simpa [collectTypes, hm, stripWrappers, nameResolver] using hm
    · simp only [stripWrappers, nameResolver, collectTypes, hm, if_false]
      exact collect_mono_all.2.1 inputFields _ name (by simp [mapInsert, mapLookup])

/-- Every direct child of `v` has its (wrapper-stripped) name present in the
index `res`. -/
def ChildNamesIn (res : List (String × GType)) (v : GType) : Prop :=
  ∀ u ∈ directChildren v, (mapLookup res (nameResolver (stripWrappers u))).isSome = true

theorem childNamesIn_mono {res res' : List (String × GType)} {v : GType}
    (h : ∀ n, (mapLookup res n).isSome = true → (mapLookup res' n).isSome = true)
    (hc : ChildNamesIn res v) : ChildNamesIn res' v :=
  fun u hu => h _ (hc u hu)

/-- Closedness: a type is only ever inserted in the branch that goes on to
walk all of its children, so every entry of the result — beyond those already
in the accumulator — has every child's name present in the result.  The list
walks additionally leave every walked type's own name present. -/
theorem collect_closed_all :
    (∀ (t : GType) (acc : List (String × GType)),
      ∀ p ∈ collectTypes t acc, p ∈ acc ∨ ChildNamesIn (collectTypes t acc) p.2) ∧
    (∀ (l : List (String × GType)) (acc : List (String × GType)),
      (∀ p ∈ collectNamedTypeList l acc,
        p ∈ acc ∨ ChildNamesIn (collectNamedTypeList l acc) p.2) ∧
      (∀ q ∈ l,
        (mapLookup (collectNamedTypeList l acc) (nameResolver (stripWrappers q.2))).isSome = true)) ∧
    (∀ (l : List GType) (acc : List (String × GType)),
      (∀ p ∈ collectTypeList l acc,
        p ∈ acc ∨ ChildNamesIn (collectTypeList l acc) p.2) ∧
      (∀ w ∈ l,
        (mapLookup (collectTypeList l acc) (nameResolver (stripWrappers w))).isSome = true)) ∧
    (∀ (l : List (String × GField)) (acc : List (String × GType)),
      (∀ p ∈ collectFieldList l acc,
        p ∈ acc ∨ ChildNamesIn (collectFieldList l acc) p.2) ∧
      (∀ f ∈ l, ∀ w ∈ fieldTargets f.2,
        (mapLookup (collectFieldList l acc) (nameResolver (stripWrappers w))).isSome = true)) := by
  refine collectTypes.mutual_induct
    (fun t acc => ∀ p ∈ collectTypes t acc, p ∈ acc ∨ ChildNamesIn (collectTypes t acc) p.2)
    (fun l acc =>
      (∀ p ∈ collectNamedTypeList l acc,
        p ∈ acc ∨ ChildNamesIn (collectNamedTypeList l acc) p.2) ∧
      (∀ q ∈ l,
        (mapLookup (collectNamedTypeList l acc) (nameResolver (stripWrappers q.2))).isSome = true))
    (fun l acc =>
      (∀ p ∈ collectTypeList l acc,
        p ∈ acc ∨ ChildNamesIn (collectTypeList l acc) p.2) ∧
      (∀ w ∈ l,
        (mapLookup (collectTypeList l acc) (nameResolver (stripWrappers w))).isSome = true))
    (fun l acc =>
      (∀ p ∈ collectFieldList l acc,
        p ∈ acc ∨ ChildNamesIn (collectFieldList l acc) p.2) ∧
      (∀ f ∈ l, ∀ w ∈ fieldTargets f.2,
        (mapLookup (collectFieldList l acc) (nameResolver (stripWrappers w))).isSome = true))
    ?_ ?_ ?_ ?_ ?_ ?_ ?_ ?_ ?_ ?_ ?_ ?_ ?_ ?_ ?_ ?_ ?_ ?_ ?_ ?_
  · intro name description fields interfaces types hm
    simp only [collectTypes, hm, if_true]
    exact fun p hp => Or.inl hp
  · intro name description fields interfaces types hm ih
    simp only [collectTypes, hm, if_false] at ih ⊢
    intro p hp
    rcases ih.1 p hp with hin | hch
    · rcases List.mem_cons.mp hin with heq | hacc
      · subst heq
        refine Or.inr (fun u hu => ?_)
        simp only [directChildren, List.mem_flatten] at hu
        obtain ⟨s, hs, hus⟩ := hu
        obtain ⟨f, hf, rfl⟩ := List.mem_map.mp hs
        exact ih.2 f hf u hus
      · exact Or.inl hacc
    · exact Or.inr hch
  · intro name description members types hm
    simp only [collectTypes, hm, if_true]
    exact fun p hp => Or.inl hp
  · intro name description members types hm ih
    simp only [collectTypes, hm, if_false] at ih ⊢
    intro p hp
    rcases ih.1 p hp with hin | hch
    · rcases List.mem_cons.mp hin with heq | hacc
      · subst heq
        refine Or.inr (fun u hu => ?_)
        simp only [directChildren] at hu
        exact ih.2 u hu
      · exact Or.inl hacc
    · exact Or.inr hch
  · intro name description fields members types hm
    simp only [collectTypes, hm, if_true]
    exact fun p hp => Or.inl hp
  · intro name description fields members types hm ih1 ih2
    simp only [collectTypes, hm, if_false] at ih1 ih2 ⊢
    intro p hp
    rcases ih2.1 p hp with hmid | hch
    · rcases ih1.1 p hmid with hin | hchmid
      · rcases List.mem_cons.mp hin with heq | hacc
        · subst heq
          refine Or.inr (fun u hu => ?_)
          simp only [directChildren, List.mem_append, List.mem_flatten] at hu
          rcases hu with ⟨s, hs, hus⟩ | humem
          · obtain ⟨f, hf, rfl⟩ := List.mem_map.mp hs
            exact collect_mono_all.2.2.1 members _ _ (ih1.2 f hf u hus)
          · exact ih2.2 u humem
        · exact Or.inl hacc
      · exact Or.inr (childNamesIn_mono (collect_mono_all.2.2.1 members _) hchmid)
    · exact Or.inr hch
  · intro inner types ih
    simp only [collectTypes]
    exact ih
  · intro name specifiedByURL types hm
    simp only [collectTypes, hm, if_true]
    exact fun p hp => Or.inl hp
  · intro name specifiedByURL types hm
    simp only [collectTypes, hm, if_false]
    intro p hp
    rcases List.mem_cons.mp hp with heq | hacc
    · subst heq
      refine Or.inr (fun u hu => ?_)
      simp [directChildren] at hu
    · exact Or.inl hacc
  · intro name values reverseMap types hm
    simp only [collectTypes, hm, if_true]
    exact fun p hp => Or.inl hp
  · intro name values reverseMap types hm
    simp only [collectTypes, hm, if_false]
    intro p hp
    rcases List.mem_cons.mp hp with heq | hacc
    · subst heq
      refine Or.inr (fun u hu => ?_)
      simp [directChildren] at hu
    · exact Or.inl hacc
  · intro name inputFields fieldDeprecations oneOf types hm
    simp only [collectTypes, hm, if_true]
    exact fun p hp => Or.inl hp
  · intro name inputFields fieldDeprecations oneOf types hm ih
    simp only [collectTypes, hm, if_false] at ih ⊢
    intro p hp
    rcases ih.1 p hp with hin | hch
    · rcases List.mem_cons.mp hin with heq | hacc
      · subst heq
        refine Or.inr (fun u hu => ?_)
        simp only [directChildren] at hu
        obtain ⟨q, hq, rfl⟩ := List.mem_map.mp hu
        exact ih.2 q hq
      · exact Or.inl hacc
    · exact Or.inr hch
  · intro inner types ih
    simp only [collectTypes]
    exact ih
  · intro types
    constructor
    · simp only [collectNamedTypeList]
      exact fun p hp => Or.inl hp
    · intro q hq
      simp at hq
  · intro fst t rest types ih1 ih2
    simp only [collectNamedTypeList] at ih2 ⊢
    constructor
    · intro p hp
      rcases ih2.1 p hp with hin | hch
      · rcases ih1 p hin with hacc | hch1
        · exact Or.inl hacc
        · exact Or.inr (childNamesIn_mono (collect_mono_all.2.1 rest _) hch1)
      · exact Or.inr hch
    · intro q hq
      rcases List.mem_cons.mp hq with heq | hrest
      · subst heq
        exact collect_mono_all.2.1 rest _ _ (collect_self_present t types)
      · exact ih2.2 q hrest
  · intro types
    constructor
    · simp only [collectTypeList]
      exact fun p hp => Or.inl hp
    · intro w hw
      simp at hw
  · intro t rest types ih1 ih2
    simp only [collectTypeList] at ih2 ⊢
    constructor
    · intro p hp
      rcases ih2.1 p hp with hin | hch
      · rcases ih1 p hin with hacc | hch1
        · exact Or.inl hacc
        · exact Or.inr (childNamesIn_mono (collect_mono_all.2.2.1 rest _) hch1)
      · exact Or.inr hch
    · intro w hw
      rcases List.mem_cons.mp hw with heq | hrest
      · subst heq
        exact collect_mono_all.2.2.1 rest _ _ (collect_self_present w types)
      · exact ih2.2 w hrest
  · intro types
    constructor
    · simp only [collectFieldList]
      exact fun p hp => Or.inl hp
    · intro f hf
      simp at hf
  · intro fst fty args isDeprecated deprecationReason rest types ih1 ih2 ih3
    simp only [collectFieldList] at ih3 ⊢
    constructor
    · intro p hp
      rcases ih3.1 p hp with hin2 | hch
      · rcases ih2.1 p hin2 with hin1 | hch2
        · rcases ih1 p hin1 with hacc | hch1
          · exact Or.inl hacc
          · exact Or.inr (childNamesIn_mono
              (fun n hn => collect_mono_all.2.2.2 rest _ n (collect_mono_all.2.1 args _ n hn)) hch1)
        · exact Or.inr (childNamesIn_mono (collect_mono_all.2.2.2 rest _) hch2)
      · exact Or.inr hch
    · intro f hf w hw
      rcases List.mem_cons.mp hf with heq | hrest
      · subst heq
        simp only [fieldTargets, GField.type, GField.args] at hw
        rcases List.mem_cons.mp hw with hweq | hwargs
        · subst hweq
          exact collect_mono_all.2.2.2 rest _ _
            (collect_mono_all.2.1 args _ _ (collect_self_present w types))
        · obtain ⟨a, ha, rfl⟩ := List.mem_map.mp hwargs
          exact collect_mono_all.2.2.2 rest _ _ (ih2.2 a ha)
      · exact ih3.2 f hrest w hw

/-- Soundness: every entry the collection walks add — beyond the accumulator
— is reachable from the walked type (resp. from one of the walked list's
types). -/
theorem collect_sound_all :
    (∀ (t : GType) (acc : List (String × GType)),
      ∀ p ∈ collectTypes t acc, p ∈ acc ∨ Reaches t p.2) ∧
    (∀ (l : List (String × GType)) (acc : List (String × GType)),
      ∀ p ∈ collectNamedTypeList l acc, p ∈ acc ∨ ∃ q ∈ l, Reaches q.2 p.2) ∧
    (∀ (l : List GType) (acc : List (String × GType)),
      ∀ p ∈ collectTypeList l acc, p ∈ acc ∨ ∃ w ∈ l, Reaches w p.2) ∧
    (∀ (l : List (String × GField)) (acc : List (String × GType)),
      ∀ p ∈ collectFieldList l acc,
        p ∈ acc ∨ ∃ f ∈ l, ∃ w ∈ fieldTargets f.2, Reaches w p.2) := by
  refine collectTypes.mutual_induct
    (fun t acc => ∀ p ∈ collectTypes t acc, p ∈ acc ∨ Reaches t p.2)
    (fun l acc => ∀ p ∈ collectNamedTypeList l acc, p ∈ acc ∨ ∃ q ∈ l, Reaches q.2 p.2)
    (fun l acc => ∀ p ∈ collectTypeList l acc, p ∈ acc ∨ ∃ w ∈ l, Reaches w p.2)
    (fun l acc => ∀ p ∈ collectFieldList l acc,
      p ∈ acc ∨ ∃ f ∈ l, ∃ w ∈ fieldTargets f.2, Reaches w p.2)
    ?_ ?_ ?_ ?_ ?_ ?_ ?_ ?_ ?_ ?_ ?_ ?_ ?_ ?_ ?_ ?_ ?_ ?_ ?_ ?_
  · intro name description fields interfaces types hm
    simp only [collectTypes, hm, if_true]
    exact fun p hp => Or.inl hp
  · intro name description fields interfaces types hm ih
    simp only [collectTypes, hm, if_false] at ih ⊢
    intro p hp
    rcases ih p hp with hin | ⟨f, hf, w, hw, hr⟩
    · rcases List.mem_cons.mp hin with heq | hacc
      · subst heq
        exact Or.inr Relation.ReflTransGen.refl
      · exact Or.inl hacc
    · refine Or.inr (Relation.ReflTransGen.head ⟨w, ?_, rfl⟩ hr)
      simp only [stripWrappers, directChildren, List.mem_flatten]
      exact ⟨fieldTargets f.2, List.mem_map.mpr ⟨f, hf, rfl⟩, hw⟩
  · intro name description members types hm
    simp only [collectTypes, hm, if_true]
    exact fun p hp => Or.inl hp
  · intro name description members types hm ih
    simp only [collectTypes, hm, if_false] at ih ⊢
    intro p hp
    rcases ih p hp with hin | ⟨w, hw, hr⟩
    · rcases List.mem_cons.mp hin with heq | hacc
      · subst heq
        exact Or.inr Relation.ReflTransGen.refl
      · exact Or.inl hacc
    · refine Or.inr (Relation.ReflTransGen.head ⟨w, ?_, rfl⟩ hr)
      simpa only [stripWrappers, directChildren] using hw
  · intro name description fields members types hm
    simp only [collectTypes, hm, if_true]
    exact fun p hp => Or.inl hp
  · intro name description fields members types hm ih1 ih2
    simp only [collectTypes, hm, if_false] at ih1 ih2 ⊢
    intro p hp
    rcases ih2 p hp with hmid | ⟨w, hw, hr⟩
    · rcases ih1 p hmid with hin | ⟨f, hf, w, hw, hr⟩
      · rcases List.mem_cons.mp hin with heq | hacc
        · subst heq
          exact Or.inr Relation.ReflTransGen.refl
        · exact Or.inl hacc
      · refine Or.inr (Relation.ReflTransGen.head ⟨w, ?_, rfl⟩ hr)
        simp only [stripWrappers, directChildren, List.mem_append, List.mem_flatten]
        exact Or.inl ⟨fieldTargets f.2, List.mem_map.mpr ⟨f, hf, rfl⟩, hw⟩
    · refine Or.inr (Relation.ReflTransGen.head ⟨w, ?_, rfl⟩ hr)
      simp only [stripWrappers, directChildren, List.mem_append]
      exact Or.inr hw
  · intro inner types ih
    simp only [collectTypes]
    intro p hp
    rcases ih p hp with hacc | hr
    · exact Or.inl hacc
    · refine Or.inr ?_
      simpa only [Reaches, stripWrappers] using hr
  · intro name specifiedByURL types hm
    simp only [collectTypes, hm, if_true]
    exact fun p hp => Or.inl hp
  · intro name specifiedByURL types hm
    simp only [collectTypes, hm, if_false]
    intro p hp
    rcases List.mem_cons.mp hp with heq | hacc
    · subst heq
      exact Or.inr Relation.ReflTransGen.refl
    · exact Or.inl hacc
  · intro name values reverseMap types hm
    simp only [collectTypes, hm, if_true]
    exact fun p hp => Or.inl hp
  · intro name values reverseMap types hm
    simp only [collectTypes, hm, if_false]
    intro p hp
    rcases List.mem_cons.mp hp with heq | hacc
    · subst heq
      exact Or.inr Relation.ReflTransGen.refl
    · exact Or.inl hacc
  · intro name inputFields fieldDeprecations oneOf types hm
    simp only [collectTypes, hm, if_true]
    exact fun p hp => Or.inl hp
  · intro name inputFields fieldDeprecations oneOf types hm ih
    simp only [collectTypes, hm, if_false] at ih ⊢
    intro p hp
    rcases ih p hp with hin | ⟨q, hq, hr⟩
    · rcases List.mem_cons.mp hin with heq | hacc
      · subst heq
        exact Or.inr Relation.ReflTransGen.refl
      · exact Or.inl hacc
    · refine Or.inr (Relation.ReflTransGen.head ⟨q.2, ?_, rfl⟩ hr)
      simp only [stripWrappers, directChildren]
      exact List.mem_map.mpr ⟨q, hq, rfl⟩
  · intro inner types ih
    simp only [collectTypes]
    intro p hp
    rcases ih p hp with hacc | hr
    · exact Or.inl hacc
    · refine Or.inr ?_
      simpa only [Reaches, stripWrappers] using hr
  · intro types
    intro p hp
    simp only [collectNamedTypeList] at hp
    exact Or.inl hp
  · intro fst t rest types ih1 ih2
    simp only [collectNamedTypeList] at ih2 ⊢
    intro p hp
    rcases ih2 p hp with hin | ⟨q, hq, hr⟩
    · rcases ih1 p hin with hacc | hr
      · exact Or.inl hacc
      · exact Or.inr ⟨(fst, t), List.mem_cons_self _ _, hr⟩
    · exact Or.inr ⟨q, List.mem_cons_of_mem _ hq, hr⟩
  · intro types
    intro p hp
    simp only [collectTypeList] at hp
    exact Or.inl hp
  · intro t rest types ih1 ih2
    simp only [collectTypeList] at ih2 ⊢
    intro p hp
    rcases ih2 p hp with hin | ⟨w, hw, hr⟩
    · rcases ih1 p hin with hacc | hr
      · exact Or.inl hacc
      · exact Or.inr ⟨t, List.mem_cons_self _ _, hr⟩
    · exact Or.inr ⟨w, List.mem_cons_of_mem _ hw, hr⟩
  · intro types
    intro p hp
    simp only [collectFieldList] at hp
    exact Or.inl hp
  · intro fst fty args isDeprecated deprecationReason rest types ih1 ih2 ih3
    simp only [collectFieldList] at ih3 ⊢
    intro p hp
    rcases ih3 p hp with hin2 | ⟨f, hf, w, hw, hr⟩
    · rcases ih2 p hin2 with hin1 | ⟨a, ha, hr⟩
      · rcases ih1 p hin1 with hacc | hr
        · exact Or.inl hacc
        · refine Or.inr ⟨(fst, .mk fty args isDeprecated deprecationReason),
            List.mem_cons_self _ _, fty, ?_, hr⟩
          simp [fieldTargets, GField.type]
      · refine Or.inr ⟨(fst, .mk fty args isDeprecated deprecationReason),
          List.mem_cons_self _ _, a.2, ?_, hr⟩
        simp only [fieldTargets, GField.type, GField.args]
        exact List.mem_cons_of_mem _ (List.mem_map.mpr ⟨a, ha, rfl⟩)
    · exact Or.inr ⟨f, List.mem_cons_of_mem _ hf, w, hw, hr⟩

/-- Every entry of the index collected from the three roots has all of its
children's names present in that index. -/
theorem collectSchemaTypes_closed (query mutation subscription : GType) :
    ∀ p ∈ collectSchemaTypes query mutation subscription,
      ChildNamesIn (collectSchemaTypes query mutation subscription) p.2 := by
  intro p hp
  simp only [collectSchemaTypes] at hp ⊢
  rcases collect_closed_all.1 subscription _ p hp with h2 | hch
  · rcases collect_closed_all.1 mutation _ p h2 with h1 | hch
    · rcases collect_closed_all.1 query _ p h1 with h0 | hch
      · simp at h0
      · exact childNamesIn_mono (fun n hn => collect_mono_all.1 subscription _ n
          (collect_mono_all.1 mutation _ n hn)) hch
    · exact childNamesIn_mono (collect_mono_all.1 subscription _) hch
  · exact hch

/-- Every entry of the index collected from the three roots is reachable from
one of them. -/
theorem collectSchemaTypes_sound (query mutation subscription : GType) :
    ∀ p ∈ collectSchemaTypes query mutation subscription,
      ReachableInSchema query mutation subscription p.2 := by
  intro p hp
  simp only [collectSchemaTypes] at hp
  rcases collect_sound_all.1 subscription _ p hp with h2 | hr
  · rcases collect_sound_all.1 mutation _ p h2 with h1 | hr
    · rcases collect_sound_all.1 query _ p h1 with h0 | hr
      · simp at h0
      · exact Or.inl hr
    · exact Or.inr (Or.inl hr)
  · exact Or.inr (Or.inr hr)

/-- The named types below the three roots are present in the collected
index. -/
theorem collectSchemaTypes_roots_present (query mutation subscription : GType) :
    (mapLookup (collectSchemaTypes query mutation subscription)
      (nameResolver (stripWrappers query))).isSome = true ∧
    (mapLookup (collectSchemaTypes query mutation subscription)
      (nameResolver (stripWrappers mutation))).isSome = true ∧
    (mapLookup (collectSchemaTypes query mutation subscription)
      (nameResolver (stripWrappers subscription))).isSome = true := by
  simp only [collectSchemaTypes]
  refine ⟨?_, ?_, ?_⟩
  · exact collect_mono_all.1 subscription _ _
      (collect_mono_all.1 mutation _ _ (collect_self_present query []))
  · exact collect_mono_all.1 subscription _ _ (collect_self_present mutation _)
  · exact collect_self_present subscription _

/-- A reachable type is never a wrapper: its introspected kind agrees with
the spec's kind table for named variants. -/
theorem reachable_specKind {query mutation subscription T : GType}
    (h : ReachableInSchema query mutation subscription T) :
    specKindOfVariant T = some (kindResolver T) := by
  have hone : ∀ r : GType, Reaches r T → specKindOfVariant T = some (kindResolver T) := by
    intro r hr
    rcases Relation.ReflTransGen.cases_tail hr with heq | ⟨c, hstep⟩
    · subst heq
      exact strip_specKind r
    · obtain ⟨w, hmemw, hw⟩ := hstep.2
      rw [← hw]
      exact strip_specKind w
  rcases h with h | h | h <;> exact hone _ h

/-- C6: in a schema whose reachable types carry pairwise distinct names (the
build-time invariant of §4.2.5; `Build` itself is not among the sources),
every named type `T` reachable from one of the three roots — along field
result types, argument types, interface and union members and input-field
types, through `List`/`NonNull` wrappers — is collected, so the
`__type(name: T.name)` resolver returns a non-null result, namely `T` itself
(hence with `name` equal to `T`'s name), and `T`'s introspected kind agrees
with the spec's kind for its variant (SCALAR, OBJECT, INTERFACE, UNION, ENUM
or INPUT_OBJECT). -/
theorem introspection_reachable_type_lookup (query mutation subscription T : GType)
    (hreach : ReachableInSchema query mutation subscription T)
    (huniq : ∀ T1 T2, ReachableInSchema query mutation subscription T1 →
      ReachableInSchema query mutation subscription T2 →
      nameResolver T1 = nameResolver T2 → T1 = T2) :
    typeNameResolver (collectSchemaTypes query mutation subscription) (nameResolver T) = some T ∧
    specKindOfVariant T = some (kindResolver T) := by
  have hexact : ∀ cur, ReachableInSchema query mutation subscription cur →
      (mapLookup (collectSchemaTypes query mutation subscription)
        (nameResolver cur)).isSome = true →
      mapLookup (collectSchemaTypes query mutation subscription)
        (nameResolver cur) = some cur := by
    intro cur hcur hsome
    obtain ⟨v, hv⟩ := Option.isSome_iff_exists.mp hsome
    have hmem := mapLookup_mem hv
    have hkey := collectSchemaTypes_inv query mutation subscription _ hmem
    have hvreach := collectSchemaTypes_sound query mutation subscription _ hmem
    rw [hv, huniq v cur hvreach hcur hkey.1.symm]
  have hone : ∀ root : GType,
      (∀ x, Reaches root x → ReachableInSchema query mutation subscription x) →
      (mapLookup (collectSchemaTypes query mutation subscription)
        (nameResolver (stripWrappers root))).isSome = true →
      ∀ cur, Reaches root cur →
        (mapLookup (collectSchemaTypes query mutation subscription)
          (nameResolver cur)).isSome = true := by
    intro root hsub hrootp cur hcur
    unfold Reaches at hcur
    induction hcur with
    | refl => exact hrootp
    | tail hp he ih =>
      have hmid := hexact _ (hsub _ hp) ih
      have hch := collectSchemaTypes_closed query mutation subscription _ (mapLookup_mem hmid)
      obtain ⟨w, hw, hsw⟩ := he
      have hpres := hch w hw
      rw [hsw] at hpres
      exact hpres
  have hroot := collectSchemaTypes_roots_present query mutation subscription
  have hpres : (mapLookup (collectSchemaTypes query mutation subscription)
      (nameResolver T)).isSome = true := by
    rcases hreach with h | h | h
    · exact hone query (fun x hx => Or.inl hx) hroot.1 T h
    · exact hone mutation (fun x hx => Or.inr (Or.inl hx)) hroot.2.1 T h
    · exact hone subscription (fun x hx => Or.inr (Or.inr hx)) hroot.2.2 T h
  exact ⟨hexact T hreach hpres, reachable_specKind hreach⟩

/-- A small concrete schema: the Query object exposes a `String` field, the
other roots are empty objects. -/
def sampleQuery : GType :=
  .object "Query" "" [("user", .mk (.scalar "String" "") [] false none)] []

def sampleMutation : GType := .object "Mutation" "" [] []

def sampleSubscription : GType := .object "Subscription" "" [] []

/-- C6 witness: in the sample schema, the scalar `String` is reachable from
the Query root through the `user` field, the reachable types' names are
pairwise distinct, and `__type(name: "String")` returns the scalar with
SCALAR kind. -/
theorem introspection_reachable_type_lookup_witness :
    typeNameResolver (collectSchemaTypes sampleQuery sampleMutation sampleSubscription)
        (nameResolver (.scalar "String" "")) = some (.scalar "String" "") ∧
    specKindOfVariant (.scalar "String" "") =
      some (kindResolver (.scalar "String" "")) := by
  have hQ : ∀ x, Reaches sampleQuery x → x = sampleQuery ∨ x = .scalar "String" "" := by
    intro x hx
    unfold Reaches at hx
    induction hx with
    | refl => exact Or.inl rfl
    | tail hp he ih =>
      rcases ih with rfl | rfl
      · obtain ⟨w, hw, hsw⟩ := he
        simp only [sampleQuery, directChildren, fieldTargets, GField.type, GField.args,
          List.map_cons, List.map_nil, List.flatten, List.append_nil, List.mem_singleton] at hw
        subst hw
        right
        rw [← hsw]
        rfl
      · obtain ⟨w, hw, _⟩ := he
        simp [directChildren] at hw
  have hM : ∀ x, Reaches sampleMutation x → x = sampleMutation := by
    intro x hx
    unfold Reaches at hx
    induction hx with
    | refl => rfl
    | tail hp he ih =>
      subst ih
      obtain ⟨w, hw, _⟩ := he
      simp [sampleMutation, directChildren] at hw
  have hS : ∀ x, Reaches sampleSubscription x → x = sampleSubscription := by
    intro x hx
    unfold Reaches at hx
    induction hx with
    | refl => rfl
    | tail hp he ih =>
      subst ih
      obtain ⟨w, hw, _⟩ := he
      simp [sampleSubscription, directChildren] at hw
  refine introspection_reachable_type_lookup sampleQuery sampleMutation sampleSubscription
    (.scalar "String" "") ?_ ?_
  · left
    show Relation.ReflTransGen SEdge (stripWrappers sampleQuery) (.scalar "String" "")
    rw [show stripWrappers sampleQuery = sampleQuery from rfl]
    exact Relation.ReflTransGen.single
      ⟨.scalar "String" "",
       by simp [sampleQuery, directChildren, fieldTargets, GField.type, GField.args], rfl⟩
  · intro T1 T2 h1 h2 hname
    have h1' : T1 = sampleQuery ∨ T1 = .scalar "String" "" ∨
        T1 = sampleMutation ∨ T1 = sampleSubscription := by
      rcases h1 with h | h | h
      · rcases hQ _ h with h' | h'
        · exact Or.inl h'
        · exact Or.inr (Or.inl h')
      · exact Or.inr (Or.inr (Or.inl (hM _ h)))
      · exact Or.inr (Or.inr (Or.inr (hS _ h)))
    have h2' : T2 = sampleQuery ∨ T2 = .scalar "String" "" ∨
        T2 = sampleMutation ∨ T2 = sampleSubscription := by
      rcases h2 with h | h | h
      · rcases hQ _ h with h' | h'
        · exact Or.inl h'
        · exact Or.inr (Or.inl h')
      · exact Or.inr (Or.inr (Or.inl (hM _ h)))
      · exact Or.inr (Or.inr (Or.inr (hS _ h)))
    rcases h1' with rfl | rfl | rfl | rfl <;> rcases h2' with rfl | rfl | rfl | rfl <;>
      simp_all [sampleQuery, sampleMutation, sampleSubscription, nameResolver]

/-- C7 counterexample: a HEAD request is neither POST nor GET, yet the
handler serves the playground page rather than the `request must be a POST`
envelope. -/
theorem head_request_counterexample :
    @serveHTTP Unit Unit (.object "Query" "" [] [])
        (.object "Mutation" "" [] []) (fun _ _ => .error "unused")
        (fun _ _ => none) (fun _ _ => .error "unused") { method := "HEAD" } =
      .playground "Jaal GraphQL Playground" "/graphql" ∧
    @serveHTTP Unit Unit (.object "Query" "" [] [])
        (.object "Mutation" "" [] []) (fun _ _ => .error "unused")
        (fun _ _ => none) (fun _ _ => .error "unused") { method := "HEAD" } ≠
      .envelope none [{ message := "request must be a POST", code := "Unknown", paths := [] }] := by
  constructor
  · rfl
  · intro h
    rw [show @serveHTTP Unit Unit (.object "Query" "" [] [])
        (.object "Mutation" "" [] []) (fun _ _ => .error "unused")
        (fun _ _ => none) (fun _ _ => .error "unused") { method := "HEAD" } =
      .playground "Jaal GraphQL Playground" "/graphql" from rfl] at h
    cases h

/-- C7 (amended): a request whose method is none of POST, GET and HEAD gets
HTTP 200 with a single-error envelope `request must be a POST` (code
`Unknown`, empty paths), and a POST carrying no body gets the envelope
`{"data":null,"errors":[{"message":"request must include a query",
"extensions":{"code":"Unknown"},"paths":[]}]}` — both before the parser,
validator or executor is ever consulted. -/
theorem http_error_envelopes {SS Out : Type} (schemaQuery schemaMutation : GType)
    (parse : String → List (String × JSON) → Except String (ParsedQuery SS))
    (validate : GType → SS → Option String)
    (exec : GType → ParsedQuery SS → Except String Out) (r : HTTPRequest) :
    (r.method ≠ "POST" → r.method ≠ "GET" → r.method ≠ "HEAD" →
      serveHTTP schemaQuery schemaMutation parse validate exec r =
        .envelope none [{ message := "request must be a POST", code := "Unknown", paths := [] }]) ∧
    (r.method = "POST" → r.body = none →
      serveHTTP schemaQuery schemaMutation parse validate exec r =
        .envelope none [{ message := "request must include a query"
                          code := "Unknown", paths := [] }]) := by
  constructor
  · intro hpost hget hhead
    rw [serveHTTP, if_neg (by simp [hget, hhead]), if_pos hpost]
    rfl
  · intro hpost hbody
    simp [serveHTTP, hpost, hbody, convertError]

/-- C7 witness: a PUT request gets the `request must be a POST` envelope and
a body-less POST the `request must include a query` envelope. -/
theorem http_error_envelopes_witness :
    @serveHTTP Unit Unit (.object "Query" "" [] [])
        (.object "Mutation" "" [] []) (fun _ _ => .error "unused")
        (fun _ _ => none) (fun _ _ => .error "unused") { method := "PUT" } =
      .envelope none [{ message := "request must be a POST", code := "Unknown", paths := [] }] ∧
    @serveHTTP Unit Unit (.object "Query" "" [] [])
        (.object "Mutation" "" [] []) (fun _ _ => .error "unused")
        (fun _ _ => none) (fun _ _ => .error "unused") { method := "POST" } =
      .envelope none [{ message := "request must include a query"
                        code := "Unknown", paths := [] }] := by
  constructor
  · exact (http_error_envelopes (.object "Query" "" [] []) (.object "Mutation" "" [] [])
      (fun _ _ => .error "unused") (fun _ _ => none) (fun _ _ => .error "unused")
      { method := "PUT" }).1 (by decide) (by decide) (by decide)
  · exact (http_error_envelopes (.object "Query" "" [] []) (.object "Mutation" "" [] [])
      (fun _ _ => .error "unused") (fun _ _ => none) (fun _ _ => .error "unused")
      { method := "POST" }).2 rfl rfl

/-- C9: once a POST body parses, the handler validates and executes every
operation whose kind differs from `mutation` — `subscription` included —
against the schema's Query root; only kind `mutation` is dispatched to the
Mutation root. -/
theorem operation_root_dispatch {SS Out : Type} (schemaQuery schemaMutation : GType)
    (parse : String → List (String × JSON) → Except String (ParsedQuery SS))
    (validate : GType → SS → Option String)
    (exec : GType → ParsedQuery SS → Except String Out) (r : HTTPRequest)
    (params : PostBody) (q : ParsedQuery SS)
    (hm : r.method = "POST") (hb : r.body = some (.ok params))
    (hp : parse params.query params.vars = .ok q) :
    (q.kind ≠ "mutation" →
      serveHTTP schemaQuery schemaMutation parse validate exec r =
        runAtRoot validate exec schemaQuery q) ∧
    (q.kind = "mutation" →
      serveHTTP schemaQuery schemaMutation parse validate exec r =
        runAtRoot validate exec schemaMutation q) := by
  have hserve : serveHTTP schemaQuery schemaMutation parse validate exec r =
      runAtRoot validate exec (if q.kind = "mutation" then schemaMutation else schemaQuery) q := by
    simp [serveHTTP, hm, hb, hp]
  constructor
  · intro hk
    rw [hserve, if_neg hk]
  · intro hk
    rw [hserve, if_pos hk]

/-- C9 witness: a parsed `subscription` operation is validated and executed
against the Query root — with an executor that returns the root it was
handed, the envelope's data is the Query object. -/
theorem operation_root_dispatch_witness :
    @serveHTTP Unit GType (.object "Query" "" [] [])
        (.object "Mutation" "" [] [])
        (fun _ _ => .ok { kind := "subscription", selectionSet := () })
        (fun _ _ => none) (fun root _ => .ok root)
        { method := "POST", body := some (.ok { query := "subscription { s }" }) } =
      .envelope (some (.object "Query" "" [] [])) [] := by
  rw [(operation_root_dispatch (.object "Query" "" [] []) (.object "Mutation" "" [] [])
      (fun _ _ => .ok { kind := "subscription", selectionSet := () })
      (fun _ _ => none) (fun root _ => .ok root)
      { method := "POST", body := some (.ok { query := "subscription { s }" }) }
      { query := "subscription { s }" } { kind := "subscription", selectionSet := () }
      rfl rfl rfl).1 (by decide)]
  rfl

end Jaal
